import Mathlib

/-!
# Foldy pattern-generation engine: shallow embedding and verification

This file embeds the core pattern-generation engine of the Foldy repository
(zone detection, precision rounding, and the Inverted / Shadow Fold / MMF /
Combi cut-mode strategies) as executable Lean definitions over exact rational
arithmetic, and proves or refutes the specification claims about them.

Modelling conventions:
* JavaScript numbers are modelled as `ℚ` (exact rational arithmetic);
  `Math.round` is modelled as `jsRound` (round half towards `+∞`).
* `ImageData` is modelled as a width/height pair together with a total
  function `data : ℤ → ℕ` giving the flat RGBA byte array (the code only
  ever reads index `(y * width + x) * 4`, the red channel of a grayscale
  image; claims only quantify over in-bounds accesses).
* Asynchronous image decoding is an external collaborator: the embedded
  service entry points take the decoded `ImageData` directly.
* Result `message` / `processedAt` strings are irrelevant to every claim and
  are replaced by fixed placeholder strings.
-/

/-- JavaScript `Math.round`: rounds to the nearest integer, halves towards
positive infinity (`Math.round (-0.5) = 0`, `Math.round (2.5) = 3`). -/
def jsRound (q : ℚ) : ℤ := ⌊q + 1/2⌋

/-- JavaScript `Math.floor` on a rational. -/
def jsFloor (q : ℚ) : ℤ := ⌊q⌋

/-- `PrecisionType` from `src/services/core/PrecisionManager.ts`:
`'0.1mm' | '0.5mm' | '1mm'`. -/
inductive PrecisionType
  | p01mm
  | p05mm
  | p1mm
deriving DecidableEq, Repr

namespace PrecisionManager
/-- `PrecisionManager.round` (PrecisionManager.ts, lines 13–30): convert the
cm value to mm, round to the nearest 0.1 / 0.5 / 1 mm grid with `Math.round`,
convert back to cm. -/
def round (valueCm : ℚ) (precision : PrecisionType) : ℚ :=
  let valueMm := valueCm * 10
  let roundedMm : ℚ :=
    match precision with
    | .p01mm => (jsRound (valueMm * 10) : ℚ) / 10
    | .p05mm => (jsRound (valueMm * 2) : ℚ) / 2
    | .p1mm => (jsRound valueMm : ℚ)
  roundedMm / 10
end PrecisionManager

namespace PrecisionManager
/-- `PrecisionManager.format` (PrecisionManager.ts, lines 35–38): apply
`round`, then round the result to 2 decimal places
(`Math.round (rounded * 100) / 100`). -/
def format (valueCm : ℚ) (precision : PrecisionType) : ℚ :=
  let rounded := round valueCm precision
  (jsRound (rounded * 100) : ℚ) / 100
end PrecisionManager

/-- The grid step (in cm) that `PrecisionManager.format` snaps to. -/
def gridStep : PrecisionType → ℚ
  | .p01mm => 1/100
  | .p05mm => 1/20
  | .p1mm => 1/10

/-- `ImageData`: width/height in pixels plus the flat RGBA byte array,
modelled as a total function from the byte index. The engine only reads
index `(y * width + x) * 4` (red channel of a grayscale image). -/
structure ImageData where
  width : ℕ
  height : ℕ
  data : ℤ → ℕ

/-- `FoldZone` (cutMode types): physical zone marks in cm.  `isEdgeFold`
is only set by the Combi service (`none` everywhere else); the core
`ZoneDetector`'s `DetectedZone` is the same record without the flag. -/
structure FoldZone where
  startMark : ℚ
  endMark : ℚ
  height : ℚ
  isEdgeFold : Option Bool := none
deriving DecidableEq, Repr

/-- `PagePattern` (cutMode types): one entry per physical page.
`isSkipped` is only set by Shadow Fold (`none` elsewhere). -/
structure PagePattern where
  page : ℕ
  zones : List FoldZone
  hasContent : Bool
  isSkipped : Option Bool := none
deriving DecidableEq, Repr

namespace ZoneDetector
/-- `DetectionConfig` from `core/ZoneDetector.ts`. -/
structure DetectionConfig where
  imageData : ImageData
  columnX : ℤ
  threshold : ℚ
  pageHeightCm : ℚ
  precision : PrecisionType
  detectDark : Bool
end ZoneDetector

namespace ZoneDetector
/-- `ZoneDetector.createZone` (core/ZoneDetector.ts, lines 64–79): convert a
pixel pair to cm marks via `(pixel / imageHeight) * pageHeightCm`, apply
`PrecisionManager.format` to both marks and to their difference. -/
def createZone (startPixel endPixel imageHeight : ℕ) (pageHeightCm : ℚ)
    (precision : PrecisionType) : FoldZone :=
  let startMarkRaw := ((startPixel : ℚ) / (imageHeight : ℚ)) * pageHeightCm
  let endMarkRaw := ((endPixel : ℚ) / (imageHeight : ℚ)) * pageHeightCm
  let startMark := PrecisionManager.format startMarkRaw precision
  let endMark := PrecisionManager.format endMarkRaw precision
  let height := PrecisionManager.format (endMark - startMark) precision
  { startMark := startMark, endMark := endMark, height := height }
end ZoneDetector

namespace ZoneDetector
/-- Whether a sample is a "target" pixel (core/ZoneDetector.ts, line 40):
dark (`gray < threshold`) when `detectDark`, light (`gray ≥ threshold`)
otherwise. -/
def isTargetPixel (cfg : DetectionConfig) (y : ℕ) : Bool :=
  let pixelIndex := ((y : ℤ) * (cfg.imageData.width : ℤ) + cfg.columnX) * 4
  let grayValue := cfg.imageData.data pixelIndex
  if cfg.detectDark then
    decide ((grayValue : ℚ) < cfg.threshold)
  else
    decide ((grayValue : ℚ) ≥ cfg.threshold)
end ZoneDetector

namespace ZoneDetector
/-- The `inZone`/`zoneStart` state machine of `ZoneDetector.detectZones`
(core/ZoneDetector.ts, lines 33–56), returning the pixel runs it closes, in
emission order.  An inner close at row `y` yields the run `(zoneStart, y)`
(the source pushes `createZone(zoneStart, y, …)`); a zone still open after
the last row is closed as `(zoneStart, imageHeight)`. -/
def detectLoop (isT : ℕ → Bool) (imageHeight : ℕ) :
    List ℕ → Bool → ℕ → List (ℕ × ℕ)
  | [], inZone, zoneStart =>
      if inZone then [(zoneStart, imageHeight)] else []
  | y :: ys, inZone, zoneStart =>
      let isTarget := isT y
      if isTarget && !inZone then
        detectLoop isT imageHeight ys true y
      else if !isTarget && inZone then
        (zoneStart, y) :: detectLoop isT imageHeight ys false zoneStart
      else
        detectLoop isT imageHeight ys inZone zoneStart
end ZoneDetector

namespace ZoneDetector
/-- `ZoneDetector.detectZones` (core/ZoneDetector.ts, lines 28–59): scan the
column top to bottom and convert every closed pixel run through
`createZone`. -/
def detectZones (cfg : DetectionConfig) : List FoldZone :=
  let imageHeight := cfg.imageData.height
  (detectLoop (isTargetPixel cfg) imageHeight (List.range imageHeight) false 0).map
    (fun r => createZone r.1 r.2 imageHeight cfg.pageHeightCm cfg.precision)
end ZoneDetector

namespace ZoneDetector
/-- The gaps between consecutive zones
(`ZoneDetector.invertZones`, core/ZoneDetector.ts, lines 108–117): for each
adjacent pair, emit the gap `[zones[i].endMark, zones[i+1].startMark]` when
its formatted height is strictly positive. -/
def invertMids (precision : PrecisionType) : List FoldZone → List FoldZone
  | z1 :: z2 :: rest =>
      let s := z1.endMark
      let e := z2.startMark
      let hgt := PrecisionManager.format (e - s) precision
      (if 0 < hgt then [{ startMark := s, endMark := e, height := hgt }] else [])
        ++ invertMids precision (z2 :: rest)
  | _ => []
end ZoneDetector

namespace ZoneDetector
/-- `ZoneDetector.invertZones` (core/ZoneDetector.ts, lines 85–131): the
complement of a zone list over `[0, pageHeightCm]` — whole page if the list
is empty, else the gap before the first zone (if its start is positive), the
gaps between consecutive zones, and the gap after the last zone (if it ends
before the page bottom). -/
def invertZones (zones : List FoldZone) (pageHeightCm : ℚ)
    (precision : PrecisionType) : List FoldZone :=
  match zones with
  | [] =>
      [{ startMark := 0, endMark := pageHeightCm, height := pageHeightCm }]
  | z0 :: rest =>
      let lead :=
        if 0 < z0.startMark then
          [{ startMark := 0, endMark := z0.startMark,
             height := PrecisionManager.format z0.startMark precision : FoldZone }]
        else []
      let lastZone := (z0 :: rest).getLast (List.cons_ne_nil z0 rest)
      let trail :=
        if lastZone.endMark < pageHeightCm then
          [{ startMark := lastZone.endMark, endMark := pageHeightCm,
             height := PrecisionManager.format (pageHeightCm - lastZone.endMark)
               precision : FoldZone }]
        else []
      lead ++ invertMids precision (z0 :: rest) ++ trail
end ZoneDetector

/-- A zone list is a gap-free, overlap-free cover of `[0, H]`: the first zone
starts at 0, each zone ends exactly where the next starts, the last zone ends
at `H`, and every zone is a genuine (possibly empty) interval. -/
def chainCovers (l : List FoldZone) (H : ℚ) : Prop :=
  l.head?.map FoldZone.startMark = some 0 ∧
  l.getLast?.map FoldZone.endMark = some H ∧
  List.Chain' (fun a b => a.endMark = b.startMark) l ∧
  ∀ z ∈ l, z.startMark ≤ z.endMark

/-- The union of two zone lists (as a multiset of cm ranges) covers `[0, H]`
exactly once: some ordering of all the ranges together tiles `[0, H]` with
no gap and no overlap. -/
def unionCoversOnce (zs gs : List FoldZone) (H : ℚ) : Prop :=
  ∃ merged : List FoldZone, (zs ++ gs).Perm merged ∧ chainCovers merged H

/-- The zones of a list interleaved with their (positive) inter-zone gaps,
in position order: the explicit tiling witness used for `unionCoversOnce`. -/
def weave (precision : PrecisionType) : List FoldZone → List FoldZone
  | [] => []
  | [z] => [z]
  | z1 :: z2 :: rest =>
      let hgt := PrecisionManager.format (z2.startMark - z1.endMark) precision
      z1 ::
        ((if 0 < hgt then
            [{ startMark := z1.endMark, endMark := z2.startMark, height := hgt :
                FoldZone }]
          else []) ++ weave precision (z2 :: rest))

/-- A 1×1 all-black image. -/
def imgBlack1 : ImageData := ⟨1, 1, fun _ => 0⟩

/-- Detection config on `imgBlack1` with a page height (0.996 cm) that is
not on the 0.1 mm precision grid. -/
def cfgOffGrid : ZoneDetector.DetectionConfig :=
  { imageData := imgBlack1, columnX := 0, threshold := 128,
    pageHeightCm := 249/250, precision := .p01mm, detectDark := true }

/-- A 1×4 image with dark rows 0 and 2 (alternating stripes). -/
def imgStripes : ImageData :=
  ⟨1, 4, fun ix => if ix.toNat / 4 % 2 = 0 then 0 else 255⟩

/-- Detection config on `imgStripes`, 20 cm page, 0.1 mm precision. -/
def cfgStripes : ZoneDetector.DetectionConfig :=
  { imageData := imgStripes, columnX := 0, threshold := 128,
    pageHeightCm := 20, precision := .p01mm, detectDark := true }

/-- `Precision` from `src/types/cutMode.types.ts`:
`'exact' | '0.1mm' | '0.5mm' | '1mm'` (the utils layer, unlike
`PrecisionManager`, also has an `'exact'` pass-through). -/
inductive Precision
  | exact
  | p01mm
  | p05mm
  | p1mm
deriving DecidableEq, Repr

/-- The utils precision corresponding to a `PrecisionManager` precision. -/
def Precision.ofType : PrecisionType → Precision
  | .p01mm => .p01mm
  | .p05mm => .p05mm
  | .p1mm => .p1mm

/-- `roundValue` (src/utils/measurement.utils.ts, lines 19–42): identity for
`'exact'`, otherwise round to the mm grid like `PrecisionManager.round`. -/
def roundValue (value : ℚ) (precision : Precision) : ℚ :=
  match precision with
  | .exact => value
  | .p01mm => ((jsRound (value * 10 * 10) : ℚ) / 10) / 10
  | .p05mm => ((jsRound (value * 10 * 2) : ℚ) / 2) / 10
  | .p1mm => (jsRound (value * 10) : ℚ) / 10

/-- `getPixelGray` (src/utils/image.utils.ts): read the red channel of the
pixel at `(x, y)` in the flat RGBA array. -/
def getPixelGray (imageData : ImageData) (x : ℤ) (y : ℕ) : ℕ :=
  imageData.data (((y : ℤ) * (imageData.width : ℤ) + x) * 4)

/-- `pixelToPagePosition` (src/utils/image.utils.ts):
`(pixelPosition / totalPixels) * pageHeight`. -/
def pixelToPagePosition (pixelPosition : ℤ) (totalPixels : ℕ)
    (pageHeight : ℚ) : ℚ :=
  ((pixelPosition : ℚ) / (totalPixels : ℚ)) * pageHeight

/-- `DetectionType` (src/utils/zoneDetection.utils.ts): `'dark' | 'light'`. -/
inductive DetectionType
  | dark
  | light
deriving DecidableEq, Repr

/-- `ZoneDetectionParams` (src/utils/zoneDetection.utils.ts). -/
structure ZoneDetectionParams where
  imageData : ImageData
  columnX : ℤ
  pageHeight : ℚ
  threshold : ℚ
  precision : Precision
  detectionType : DetectionType

/-- `matchesDetection` (zoneDetection.utils.ts, lines 55–59). -/
def matchesDetection (detectionType : DetectionType) (threshold : ℚ)
    (grayValue : ℕ) : Bool :=
  match detectionType with
  | .dark => decide ((grayValue : ℚ) < threshold)
  | .light => decide ((grayValue : ℚ) ≥ threshold)

/-- `createZone` (zoneDetection.utils.ts, lines 97–113): marks from
`pixelToPagePosition`, height from the raw difference, all through
`roundValue`. -/
def createZoneUtils (startPixel endPixel : ℤ) (totalPixels : ℕ)
    (pageHeight : ℚ) (precision : Precision) : FoldZone :=
  let startMark := pixelToPagePosition startPixel totalPixels pageHeight
  let endMark := pixelToPagePosition endPixel totalPixels pageHeight
  let height := endMark - startMark
  { startMark := roundValue startMark precision,
    endMark := roundValue endMark precision,
    height := roundValue height precision }

/-- The `inZone`/`zoneStart` state machine of `detectZonesInColumn`
(zoneDetection.utils.ts, lines 62–83), with `zoneStart : ℤ` initialised to
`-1` as in the source.  An inner close at row `y` emits the zone for the
pixel range `[zoneStart, y − 1]`; a zone still open after the loop is closed
as `[zoneStart, height − 1]`. -/
def detectColumnLoop (params : ZoneDetectionParams) :
    List ℕ → Bool → ℤ → List FoldZone
  | [], inZone, zoneStart =>
      if inZone ∧ zoneStart ≠ -1 then
        [createZoneUtils zoneStart ((params.imageData.height : ℤ) - 1)
          params.imageData.height params.pageHeight params.precision]
      else []
  | y :: ys, inZone, zoneStart =>
      let gray := getPixelGray params.imageData params.columnX y
      let isMatch := matchesDetection params.detectionType params.threshold gray
      if isMatch && !inZone then
        detectColumnLoop params ys true (y : ℤ)
      else if !isMatch && inZone then
        createZoneUtils zoneStart ((y : ℤ) - 1) params.imageData.height
            params.pageHeight params.precision ::
          detectColumnLoop params ys false (-1)
      else
        detectColumnLoop params ys inZone zoneStart

/-- `detectZonesInColumn` (zoneDetection.utils.ts, lines 41–86): bounds-check
the column, then scan it top to bottom. -/
def detectZonesInColumn (params : ZoneDetectionParams) : List FoldZone :=
  if params.columnX < 0 ∨ (params.imageData.width : ℤ) ≤ params.columnX then []
  else detectColumnLoop params (List.range params.imageData.height) false (-1)

/-- The shared target predicate of both zone detectors: dark
(`gray < threshold`) when `d`, light (`gray ≥ threshold`) otherwise, reading
the red channel at `(y * width + columnX) * 4`. -/
def specTarget (img : ImageData) (columnX : ℤ) (threshold : ℚ) (d : Bool)
    (y : ℕ) : Bool :=
  let grayValue := img.data (((y : ℤ) * (img.width : ℤ) + columnX) * 4)
  if d then decide ((grayValue : ℚ) < threshold)
  else decide ((grayValue : ℚ) ≥ threshold)

/-- Modelled from the spec (§4.3, the claim's closing convention): scan rows
top to bottom; on a transition target→not-target at row `y`, close the
current run at pixel `y − 1`; a run still open after the last row is closed
at pixel `height − 1`.  Runs are inclusive pixel ranges `(start, end)`. -/
def specScanGo (isT : ℕ → Bool) (imageHeight : ℕ) :
    List ℕ → Bool → ℕ → List (ℕ × ℕ)
  | [], inZone, zoneStart =>
      if inZone then [(zoneStart, imageHeight - 1)] else []
  | y :: ys, inZone, zoneStart =>
      if isT y && !inZone then
        specScanGo isT imageHeight ys true y
      else if !(isT y) && inZone then
        (zoneStart, y - 1) :: specScanGo isT imageHeight ys false zoneStart
      else
        specScanGo isT imageHeight ys inZone zoneStart

/-- Modelled from the spec: the inclusive pixel runs of one column scan,
closing at `y − 1` on a transition and at `height − 1` at the bottom. -/
def specScanRuns (isT : ℕ → Bool) (imageHeight : ℕ) : List (ℕ × ℕ) :=
  specScanGo isT imageHeight (List.range imageHeight) false 0

/-- The cm mark pairs claim C1 asserts for a column scan: each inclusive run
`(s, e)` of the spec machine, both endpoints converted via
`(pixel / height) * pageHeightCm` and precision-formatted. -/
def claimC1Marks (isT : ℕ → Bool) (imageHeight : ℕ) (pageHeightCm : ℚ)
    (p : PrecisionType) : List (ℚ × ℚ) :=
  (specScanRuns isT imageHeight).map
    (fun r => (PrecisionManager.format
        ((r.1 : ℚ) / (imageHeight : ℚ) * pageHeightCm) p,
      PrecisionManager.format ((r.2 : ℚ) / (imageHeight : ℚ) * pageHeightCm) p))

/-- A 1×2 image with row 0 dark and row 1 light. -/
def imgStep : ImageData :=
  ⟨1, 2, fun ix => if ix.toNat / 4 = 0 then 0 else 255⟩

/-- Core detection config on `imgStep`, 20 cm page, 0.1 mm precision. -/
def cfgStep : ZoneDetector.DetectionConfig :=
  { imageData := imgStep, columnX := 0, threshold := 128,
    pageHeightCm := 20, precision := .p01mm, detectDark := true }

/-- JavaScript `Math.ceil` on a rational. -/
def jsCeil (q : ℚ) : ℤ := ⌈q⌉

/-- `shadowFoldType` from `base/types.ts`: `'1:1' | '2:1'`. -/
inductive ShadowFoldType
  | oneOne
  | twoOne
deriving DecidableEq, Repr

/-- `GenerationParams` (base/types.ts), restricted to the fields the
embedded generators read (`shadowFoldType`; the numeric fields are passed
through `GenerationContext`). -/
structure GenerationParams where
  shadowFoldType : Option ShadowFoldType := none

/-- `GenerationContext` (CutModeBase.ts, lines 11–18). -/
structure GenerationContext where
  imageData : ImageData
  pageHeightCm : ℚ
  physicalPages : ℕ
  threshold : ℚ
  precision : PrecisionType
  params : GenerationParams

namespace CutModeBase
/-- `CutModeBase.generatePattern` (CutModeBase.ts, lines 81–106): for every
physical page, select the column `Math.floor(page * width / physicalPages)`,
run `ZoneDetector.detectZones` with the mode's polarity, and store
`hasContent = zones.length > 0`.  `detectDarkZones` is the subclass's
polarity field. -/
def generatePattern (detectDarkZones : Bool) (context : GenerationContext) :
    List PagePattern :=
  let pixelsPerPage : ℚ :=
    (context.imageData.width : ℚ) / (context.physicalPages : ℚ)
  (List.range context.physicalPages).map (fun (page : ℕ) =>
    let columnX : ℤ := jsFloor ((page : ℚ) * pixelsPerPage)
    let zones := ZoneDetector.detectZones
      { imageData := context.imageData, columnX := columnX,
        threshold := context.threshold, pageHeightCm := context.pageHeightCm,
        precision := context.precision, detectDark := detectDarkZones }
    { page := page + 1, zones := zones,
      hasContent := decide (0 < zones.length) })
end CutModeBase

/-- `InvertedMode` (InvertedMode.ts): `detectDarkZones = true`, no
post-processing — the base behaviour. -/
def InvertedMode.generatePattern : GenerationContext → List PagePattern :=
  CutModeBase.generatePattern true

namespace ShadowFoldMode
/-- `ShadowFoldMode.shouldSkipPage` (ShadowFoldMode.ts, lines 38–46):
period `'1:1'` skips odd 0-indexed pages; `'2:1'` skips every third page
(`(i + 1) % 3 == 0`). -/
def shouldSkipPage (pageIndex : ℕ) (shadowFoldType : ShadowFoldType) : Bool :=
  match shadowFoldType with
  | .oneOne => pageIndex % 2 == 1
  | .twoOne => (pageIndex + 1) % 3 == 0
end ShadowFoldMode

namespace ShadowFoldMode
/-- The `forEach` post-processing of `ShadowFoldMode.generatePattern`
(ShadowFoldMode.ts, lines 22–30): set `isSkipped` on every page and empty
the zones of skipped pages. -/
def applySkip (shadowFoldType : ShadowFoldType) :
    ℕ → List PagePattern → List PagePattern
  | _, [] => []
  | index, page :: rest =>
      let isSkipped := shouldSkipPage index shadowFoldType
      let page' := { page with isSkipped := some isSkipped }
      (if isSkipped then { page' with zones := [], hasContent := false }
       else page') :: applySkip shadowFoldType (index + 1) rest
end ShadowFoldMode

namespace ShadowFoldMode
/-- `ShadowFoldMode.generatePattern` (ShadowFoldMode.ts, lines 17–33):
the base dark-zone pattern (`super.generatePattern`), then the skip
post-processing with period defaulting to `'1:1'`. -/
def generatePattern (context : GenerationContext) : List PagePattern :=
  let pattern := CutModeBase.generatePattern true context
  let shadowFoldType := context.params.shadowFoldType.getD .oneOne
  applySkip shadowFoldType 0 pattern
end ShadowFoldMode

namespace MMFMode
/-- `MMFMode.combineZones` (MMFMode.ts, lines 61–80): `null` on an empty
list, else one zone from the minimum `startMark` to the maximum `endMark`
over all detected zones, formatted. -/
def combineZones (zones : List FoldZone) (precision : PrecisionType) :
    Option FoldZone :=
  match zones with
  | [] => none
  | z :: _ =>
      let minStart := zones.foldl (fun m zone => min m zone.startMark) z.startMark
      let maxEnd := zones.foldl (fun m zone => max m zone.endMark) z.endMark
      some ({ startMark := PrecisionManager.format minStart precision,
              endMark := PrecisionManager.format maxEnd precision,
              height := PrecisionManager.format (maxEnd - minStart) precision })
end MMFMode

namespace MMFMode
/-- `MMFMode.generatePattern` (MMFMode.ts, lines 19–56): detect per page as
in the base, then collapse all zones into the single combined zone;
`hasContent` is true exactly when a combined zone exists. -/
def generatePattern (context : GenerationContext) : List PagePattern :=
  let pixelsPerPage : ℚ :=
    (context.imageData.width : ℚ) / (context.physicalPages : ℚ)
  (List.range context.physicalPages).map (fun (page : ℕ) =>
    let columnX : ℤ := jsFloor ((page : ℚ) * pixelsPerPage)
    let detectedZones := ZoneDetector.detectZones
      { imageData := context.imageData, columnX := columnX,
        threshold := context.threshold, pageHeightCm := context.pageHeightCm,
        precision := context.precision, detectDark := true }
    match combineZones detectedZones context.precision with
    | some combinedZone =>
        { page := page + 1, zones := [combinedZone], hasContent := true }
    | none => { page := page + 1, zones := [], hasContent := false })
end MMFMode

/-- The page-height unit `'cm' | 'in'`. -/
inductive UnitKind
  | cm
  | inch
deriving DecidableEq, Repr

/-- `CutModeParams` (combi.service.ts, lines 9–16); every field is optional
in the source. -/
structure CutModeParams where
  lastPageNumber : Option ℚ := none
  pageHeight : Option ℚ := none
  pageHeightUnit : Option UnitKind := none
  threshold : Option ℚ := none
  precision : Option Precision := none
  combiEdgeWidth : Option ℚ := none

/-- The `data` payload of `CutModeResult` (combi.service.ts, lines 34–39).
`processedAt` is a wall-clock string in the source, irrelevant to every
claim, and fixed to `""` here. -/
structure CutModeResultData where
  mode : String
  pattern : Option (List PagePattern) := none
  processedAt : String := ""
  combiEdgeWidth : Option ℚ := none

/-- `CutModeResult` (combi.service.ts, lines 31–40). -/
structure CutModeResult where
  success : Bool
  message : String
  data : Option CutModeResultData := none

namespace CombiService
/-- `CombiService.roundValue` (combi.service.ts, lines 46–67): identical to
the utils `roundValue`, duplicated in the source. -/
def roundValue (value : ℚ) (precision : Precision) : ℚ :=
  match precision with
  | .exact => value
  | .p01mm => ((jsRound (value * 10 * 10) : ℚ) / 10) / 10
  | .p05mm => ((jsRound (value * 10 * 2) : ℚ) / 2) / 10
  | .p1mm => (jsRound (value * 10) : ℚ) / 10
end CombiService

namespace CombiService
/-- The per-row center scan of `CombiService.generatePattern`
(combi.service.ts, lines 120–194), including the final close with its
`Math.min` clamp to `pageHeight - edgeWidth`.  Rows whose cm position falls
in an edge band close any open zone at `y − 1` and are otherwise skipped. -/
def centerLoop (imageData : ImageData) (x : ℤ) (pageHeight threshold : ℚ)
    (precision : Precision) (edgeWidth : ℚ) :
    List ℕ → Bool → ℤ → List FoldZone
  | [], inZone, zoneStart =>
      if inZone ∧ zoneStart ≠ -1 then
        let zoneEnd : ℤ := (imageData.height : ℤ) - 1
        let yPos := ((zoneEnd : ℚ) / (imageData.height : ℚ)) * pageHeight
        if yPos ≤ pageHeight - edgeWidth then
          let startMark := ((zoneStart : ℚ) / (imageData.height : ℚ)) * pageHeight
          let endMark :=
            min (((zoneEnd : ℚ) / (imageData.height : ℚ)) * pageHeight)
              (pageHeight - edgeWidth)
          let zoneHeight := endMark - startMark
          [{ startMark := roundValue startMark precision,
             endMark := roundValue endMark precision,
             height := roundValue zoneHeight precision,
             isEdgeFold := some false }]
        else []
      else []
  | y :: ys, inZone, zoneStart =>
      let gray := imageData.data (((y : ℤ) * (imageData.width : ℤ) + x) * 4)
      let yPos := ((y : ℚ) / (imageData.height : ℚ)) * pageHeight
      if yPos < edgeWidth ∨ yPos > pageHeight - edgeWidth then
        if inZone ∧ zoneStart ≠ -1 then
          let zoneEnd : ℤ := (y : ℤ) - 1
          let startMark := ((zoneStart : ℚ) / (imageData.height : ℚ)) * pageHeight
          let endMark := ((zoneEnd : ℚ) / (imageData.height : ℚ)) * pageHeight
          let zoneHeight := endMark - startMark
          { startMark := roundValue startMark precision,
            endMark := roundValue endMark precision,
            height := roundValue zoneHeight precision,
            isEdgeFold := some false } ::
            centerLoop imageData x pageHeight threshold precision edgeWidth ys
              false (-1)
        else
          centerLoop imageData x pageHeight threshold precision edgeWidth ys
            inZone zoneStart
      else
        let isDark := decide ((gray : ℚ) < threshold)
        if isDark ∧ ¬inZone then
          centerLoop imageData x pageHeight threshold precision edgeWidth ys
            true (y : ℤ)
        else if ¬isDark ∧ inZone then
          let zoneEnd : ℤ := (y : ℤ) - 1
          let startMark := ((zoneStart : ℚ) / (imageData.height : ℚ)) * pageHeight
          let endMark := ((zoneEnd : ℚ) / (imageData.height : ℚ)) * pageHeight
          let zoneHeight := endMark - startMark
          { startMark := roundValue startMark precision,
            endMark := roundValue endMark precision,
            height := roundValue zoneHeight precision,
            isEdgeFold := some false } ::
            centerLoop imageData x pageHeight threshold precision edgeWidth ys
              false (-1)
        else
          centerLoop imageData x pageHeight threshold precision edgeWidth ys
            inZone zoneStart
end CombiService

namespace CombiService
/-- `CombiService.generatePattern` (combi.service.ts, lines 74–207): per
page, the two fixed edge folds (`[0, edgeWidth]` and
`[pageHeight − edgeWidth, pageHeight]`, `isEdgeFold = true`), then the
dark-zone scan of the center band, the whole list sorted by `startMark`;
`hasContent` is `zones.length > 2`. -/
def generatePattern (imageData : ImageData) (bookPages : ℕ)
    (pageHeight threshold : ℚ) (precision : Precision) (edgeWidth : ℚ) :
    List PagePattern :=
  let pixelsPerPage : ℚ := (imageData.width : ℚ) / (bookPages : ℚ)
  (List.range bookPages).map (fun (page : ℕ) =>
    let bookX := (page : ℚ) * pixelsPerPage
    let x : ℤ := jsFloor bookX
    if x < 0 ∨ (imageData.width : ℤ) ≤ x then
      { page := page + 1, zones := [], hasContent := false }
    else
      let zones : List FoldZone :=
        { startMark := roundValue 0 precision,
          endMark := roundValue edgeWidth precision,
          height := roundValue edgeWidth precision, isEdgeFold := some true } ::
        { startMark := roundValue (pageHeight - edgeWidth) precision,
          endMark := roundValue pageHeight precision,
          height := roundValue edgeWidth precision, isEdgeFold := some true } ::
        centerLoop imageData x pageHeight threshold precision edgeWidth
          (List.range imageData.height) false (-1)
      let sortedZones :=
        List.insertionSort (fun a b => a.startMark ≤ b.startMark) zones
      { page := page + 1, zones := sortedZones,
        hasContent := decide (2 < sortedZones.length) })
end CombiService

namespace CombiService
/-- `CombiService.execute` (combi.service.ts, lines 243–319): validate the
parameters (page count, page height, then the edge-width constraint), apply
defaults, convert the page height to cm, and generate the pattern.  Image
decoding is the external collaborator boundary: the decoded `ImageData` is
taken directly. -/
def execute (imgData : ImageData) (params : CutModeParams) : CutModeResult :=
  if params.lastPageNumber.getD 0 ≤ 0 then
    { success := false, message := "Le nombre de pages doit etre > 0" }
  else if params.pageHeight.getD 0 ≤ 0 then
    { success := false, message := "La hauteur de page doit etre > 0" }
  else
    let threshold := params.threshold.getD 128
    let precision := params.precision.getD .p01mm
    let edgeWidth := params.combiEdgeWidth.getD 2
    let pageHeightInCm :=
      if params.pageHeightUnit == some UnitKind.inch then
        params.pageHeight.getD 0 * (254/100)
      else params.pageHeight.getD 0
    if edgeWidth * 2 ≥ pageHeightInCm then
      { success := false, message := "La largeur des bords est trop grande" }
    else
      let physicalPages := (jsCeil (params.lastPageNumber.getD 0 / 2)).toNat
      let pattern := generatePattern imgData physicalPages pageHeightInCm
        threshold precision edgeWidth
      { success := true, message := "Combi applique avec succes",
        data := some { mode := "Combi", pattern := some pattern,
                       processedAt := "", combiEdgeWidth := some edgeWidth } }
end CombiService

/-- Witness context: a 1×2 all-light image, two physical pages, period 1:1. -/
def ctxLight : GenerationContext :=
  { imageData := ⟨1, 2, fun _ => 255⟩, pageHeightCm := 20, physicalPages := 2,
    threshold := 128, precision := .p01mm,
    params := { shadowFoldType := some .oneOne } }

/-- A 1×4 all-white image (no dark pixels anywhere). -/
def imgWhite4 : ImageData := ⟨1, 4, fun _ => 255⟩

/-- Witness page for the Combi content rule: only the two edge folds, no
center zone. -/
def combiPageW : PagePattern :=
  { page := 1,
    zones := [⟨0, 1, 1, some true⟩, ⟨3, 4, 1, some true⟩],
    hasContent := false }

/-- Valid Combi parameters: edge width 1 cm on a 4 cm page. -/
def paramsCombi1 : CutModeParams :=
  { lastPageNumber := some 2, pageHeight := some 4, threshold := some 128,
    precision := some .p01mm, combiEdgeWidth := some 1 }

/-- Invalid Combi parameters: edge width 2.5 cm on a 4 cm page. -/
def paramsCombi25 : CutModeParams :=
  { lastPageNumber := some 2, pageHeight := some 4, threshold := some 128,
    precision := some .p01mm, combiEdgeWidth := some (5/2) }

/-- A 1×200 image whose single column has a dark run at rows 40–59. -/
def img9 : ImageData :=
  ⟨1, 200, fun ix => if 40 ≤ ix.toNat / 4 ∧ ix.toNat / 4 ≤ 59 then 0 else 255⟩

/-- The C9 scenario context: 10 physical pages, 20 cm page height,
threshold 128, 0.1 mm precision. -/
def ctx9 : GenerationContext :=
  { imageData := img9, pageHeightCm := 20, physicalPages := 10,
    threshold := 128, precision := .p01mm, params := {} }

theorem gridStep_pos (p : PrecisionType) : 0 < gridStep p := by
  cases p <;> norm_num [gridStep]

/-- `jsRound` is the identity on integers. -/
theorem jsRound_intCast (z : ℤ) : jsRound (z : ℚ) = z := by
  unfold jsRound
  rw [Int.floor_eq_iff]
  exact ⟨by linarith, by linarith⟩

/-- `jsRound` is monotone. -/
theorem jsRound_mono {a b : ℚ} (h : a ≤ b) : jsRound a ≤ jsRound b := by
  exact Int.floor_le_floor (by linarith)

/-- Every output of `PrecisionManager.format` is an integer multiple of the
precision's grid step. -/
theorem format_eq_intMul (x : ℚ) (p : PrecisionType) :
    ∃ k : ℤ, PrecisionManager.format x p = k * gridStep p := by
  cases p
  · refine ⟨jsRound (x * 10 * 10), ?_⟩
    simp only [PrecisionManager.format, PrecisionManager.round, gridStep]
    have h2 : ((jsRound (x * 10 * 10) : ℚ) / 10 / 10 * 100) =
        ((jsRound (x * 10 * 10) : ℤ) : ℚ) := by ring
    rw [h2, jsRound_intCast]
    ring
  · refine ⟨jsRound (x * 10 * 2), ?_⟩
    simp only [PrecisionManager.format, PrecisionManager.round, gridStep]
    have h2 : ((jsRound (x * 10 * 2) : ℚ) / 2 / 10 * 100) =
        ((5 * jsRound (x * 10 * 2) : ℤ) : ℚ) := by push_cast; ring
    rw [h2, jsRound_intCast]
    push_cast
    ring
  · refine ⟨jsRound (x * 10), ?_⟩
    simp only [PrecisionManager.format, PrecisionManager.round, gridStep]
    have h2 : ((jsRound (x * 10) : ℚ) / 10 * 100) =
        ((10 * jsRound (x * 10) : ℤ) : ℚ) := by push_cast; ring
    rw [h2, jsRound_intCast]
    push_cast
    ring

/-- `PrecisionManager.format` fixes every integer multiple of the grid step. -/
theorem format_intMul_step (k : ℤ) (p : PrecisionType) :
    PrecisionManager.format (k * gridStep p) p = k * gridStep p := by
  cases p
  · simp only [PrecisionManager.format, PrecisionManager.round, gridStep]
    have h1 : ((k : ℚ) * (1/100) * 10 * 10) = ((k : ℤ) : ℚ) := by ring
    rw [h1, jsRound_intCast]
    have h2 : ((k : ℚ) / 10 / 10 * 100) = ((k : ℤ) : ℚ) := by ring
    rw [h2, jsRound_intCast]
    ring
  · simp only [PrecisionManager.format, PrecisionManager.round, gridStep]
    have h1 : ((k : ℚ) * (1/20) * 10 * 2) = ((k : ℤ) : ℚ) := by ring
    rw [h1, jsRound_intCast]
    have h2 : ((k : ℚ) / 2 / 10 * 100) = ((5 * k : ℤ) : ℚ) := by push_cast; ring
    rw [h2, jsRound_intCast]
    push_cast
    ring
  · simp only [PrecisionManager.format, PrecisionManager.round, gridStep]
    have h1 : ((k : ℚ) * (1/10) * 10) = ((k : ℤ) : ℚ) := by ring
    rw [h1, jsRound_intCast]
    have h2 : ((k : ℚ) / 10 * 100) = ((10 * k : ℤ) : ℚ) := by push_cast; ring
    rw [h2, jsRound_intCast]
    push_cast
    ring

/-- `PrecisionManager.round` is monotone. -/
theorem round_mono {a b : ℚ} (p : PrecisionType) (h : a ≤ b) :
    PrecisionManager.round a p ≤ PrecisionManager.round b p := by
  unfold PrecisionManager.round
  cases p <;> simp only
  · have h1 : jsRound (a * 10 * 10) ≤ jsRound (b * 10 * 10) :=
      jsRound_mono (by nlinarith)
    have : (jsRound (a * 10 * 10) : ℚ) ≤ (jsRound (b * 10 * 10) : ℚ) := by
      exact_mod_cast h1
    have := div_le_div_of_nonneg_right this (by norm_num : (0:ℚ) ≤ 10)
    exact div_le_div_of_nonneg_right this (by norm_num : (0:ℚ) ≤ 10)
  · have h1 : jsRound (a * 10 * 2) ≤ jsRound (b * 10 * 2) :=
      jsRound_mono (by nlinarith)
    have : (jsRound (a * 10 * 2) : ℚ) ≤ (jsRound (b * 10 * 2) : ℚ) := by
      exact_mod_cast h1
    have := div_le_div_of_nonneg_right this (by norm_num : (0:ℚ) ≤ 2)
    exact div_le_div_of_nonneg_right this (by norm_num : (0:ℚ) ≤ 10)
  · have h1 : jsRound (a * 10) ≤ jsRound (b * 10) :=
      jsRound_mono (by nlinarith)
    have : (jsRound (a * 10) : ℚ) ≤ (jsRound (b * 10) : ℚ) := by
      exact_mod_cast h1
    exact div_le_div_of_nonneg_right this (by norm_num : (0:ℚ) ≤ 10)

/-- `PrecisionManager.format` is monotone. -/
theorem format_mono {a b : ℚ} (p : PrecisionType) (h : a ≤ b) :
    PrecisionManager.format a p ≤ PrecisionManager.format b p := by
  unfold PrecisionManager.format
  have h1 : jsRound (PrecisionManager.round a p * 100) ≤
      jsRound (PrecisionManager.round b p * 100) :=
    jsRound_mono (by nlinarith [round_mono p h])
  have : (jsRound (PrecisionManager.round a p * 100) : ℚ) ≤
      (jsRound (PrecisionManager.round b p * 100) : ℚ) := by exact_mod_cast h1
  exact div_le_div_of_nonneg_right this (by norm_num : (0:ℚ) ≤ 100)

theorem format_zero (p : PrecisionType) : PrecisionManager.format 0 p = 0 := by
  simpa using format_intMul_step 0 p

/-- C5: `PrecisionManager.format` is idempotent: for every value `x` (in cm)
and every valid precision `p ∈ {0.1mm, 0.5mm, 1mm}`,
`format (format x p) p = format x p`. -/
theorem format_idempotent (x : ℚ) (p : PrecisionType) :
    PrecisionManager.format (PrecisionManager.format x p) p =
      PrecisionManager.format x p := by
  obtain ⟨k, hk⟩ := format_eq_intMul x p
  rw [hk]
  exact format_intMul_step k p

namespace ZoneDetector
/-- Every run the scanner closes starts at or after any lower bound common to
the remaining rows (and to the currently open start). -/
theorem detectLoop_start_lb (isT : ℕ → Bool) (h : ℕ) :
    ∀ (ys : List ℕ) (iz : Bool) (zs b : ℕ),
      (∀ y ∈ ys, b ≤ y) → (iz = true → b ≤ zs) →
      ∀ r ∈ detectLoop isT h ys iz zs, b ≤ r.1 := by
  intro ys
  induction ys with
  | nil =>
      intro iz zs b _ hiz r hr
      cases iz with
      | false => simp [detectLoop] at hr
      | true =>
          simp [detectLoop] at hr
          rw [hr]
          exact hiz rfl
  | cons y ys ih =>
      intro iz zs b hb hiz r hr
      simp only [detectLoop] at hr
      by_cases ht : (isT y && !iz) = true
      · rw [if_pos ht] at hr
        exact ih true y b (fun y' hy' => hb y' (List.mem_cons_of_mem _ hy'))
          (fun _ => hb y (List.mem_cons_self _ _)) r hr
      · rw [if_neg ht] at hr
        by_cases hc : (!isT y && iz) = true
        · rw [if_pos hc] at hr
          rcases List.mem_cons.mp hr with hr | hr
          · rw [hr]
            exact hiz (by
              rcases Bool.and_eq_true .. |>.mp hc with ⟨_, h2⟩
              exact h2)
          · exact ih false zs b (fun y' hy' => hb y' (List.mem_cons_of_mem _ hy'))
              (by simp) r hr
        · rw [if_neg hc] at hr
          exact ih iz zs b (fun y' hy' => hb y' (List.mem_cons_of_mem _ hy'))
            hiz r hr
end ZoneDetector

namespace ZoneDetector
/-- Every closed run has its start at or before its end, provided the rows
are scanned in strictly increasing order below `h`. -/
theorem detectLoop_start_le_end (isT : ℕ → Bool) (h : ℕ) :
    ∀ (ys : List ℕ) (iz : Bool) (zs : ℕ),
      List.Pairwise (· < ·) ys →
      (∀ y ∈ ys, y ≤ h) →
      (iz = true → zs ≤ h ∧ ∀ y ∈ ys, zs ≤ y) →
      ∀ r ∈ detectLoop isT h ys iz zs, r.1 ≤ r.2 := by
  intro ys
  induction ys with
  | nil =>
      intro iz zs _ _ hiz r hr
      cases iz with
      | false => simp [detectLoop] at hr
      | true =>
          simp [detectLoop] at hr
          rw [hr]
          exact (hiz rfl).1
  | cons y ys ih =>
      intro iz zs hsort hbound hiz r hr
      simp only [detectLoop] at hr
      have hsort' := List.Pairwise.of_cons hsort
      have hbound' : ∀ y' ∈ ys, y' ≤ h :=
        fun y' hy' => hbound y' (List.mem_cons_of_mem _ hy')
      by_cases ht : (isT y && !iz) = true
      · rw [if_pos ht] at hr
        refine ih true y hsort' hbound' (fun _ => ?_) r hr
        exact ⟨hbound y (List.mem_cons_self _ _),
          fun y' hy' => le_of_lt (List.rel_of_pairwise_cons hsort hy')⟩
      · rw [if_neg ht] at hr
        by_cases hc : (!isT y && iz) = true
        · rw [if_pos hc] at hr
          rcases List.mem_cons.mp hr with hr | hr
          · rw [hr]
            have hiz' := (Bool.and_eq_true .. |>.mp hc).2
            exact (hiz hiz').2 y (List.mem_cons_self _ _)
          · exact ih false zs hsort' hbound' (by simp) r hr
        · rw [if_neg hc] at hr
          refine ih iz zs hsort' hbound' (fun hiz' => ?_) r hr
          exact ⟨(hiz hiz').1,
            fun y' hy' => (hiz hiz').2 y' (List.mem_cons_of_mem _ hy')⟩
end ZoneDetector

namespace ZoneDetector
/-- The closed runs are emitted in scan order: each run ends at or before the
next one starts. -/
theorem detectLoop_chain (isT : ℕ → Bool) (h : ℕ) :
    ∀ (ys : List ℕ) (iz : Bool) (zs : ℕ),
      List.Pairwise (· < ·) ys →
      List.Chain' (fun a b => a.2 ≤ b.1) (detectLoop isT h ys iz zs) := by
  intro ys
  induction ys with
  | nil =>
      intro iz zs _
      cases iz <;> simp [detectLoop]
  | cons y ys ih =>
      intro iz zs hsort
      simp only [detectLoop]
      have hsort' := List.Pairwise.of_cons hsort
      by_cases ht : (isT y && !iz) = true
      · rw [if_pos ht]
        exact ih true y hsort'
      · rw [if_neg ht]
        by_cases hc : (!isT y && iz) = true
        · rw [if_pos hc]
          rw [List.chain'_cons']
          refine ⟨?_, ih false zs hsort'⟩
          intro r hr
          have hmem := List.mem_of_mem_head? hr
          exact detectLoop_start_lb isT h ys false zs y
            (fun y' hy' => le_of_lt (List.rel_of_pairwise_cons hsort hy'))
            (by simp) r hmem
        · rw [if_neg hc]
          exact ih iz zs hsort'
end ZoneDetector

namespace ZoneDetector
/-- Internal form of the ordering guarantee: the zone list returned by
`ZoneDetector.detectZones` is non-overlapping (each zone ends at or before
the next starts) and sorted by increasing `startMark`. -/
theorem detectZones_ordered_core (cfg : DetectionConfig)
    (hH : 0 ≤ cfg.pageHeightCm) :
    List.Chain' (fun z1 z2 => z1.endMark ≤ z2.startMark) (detectZones cfg) ∧
    List.Chain' (fun z1 z2 => z1.startMark ≤ z2.startMark) (detectZones cfg) := by
  set h := cfg.imageData.height with hh
  have hsort : List.Pairwise (· < ·) (List.range h) := List.pairwise_lt_range h
  have hbound : ∀ y ∈ List.range h, y ≤ h :=
    fun y hy => le_of_lt (List.mem_range.mp hy)
  have hruns := detectLoop_chain (isTargetPixel cfg) h (List.range h) false 0 hsort
  have hle := detectLoop_start_le_end (isTargetPixel cfg) h (List.range h) false 0
    hsort hbound (by simp)
  have hmark : ∀ a b : ℕ, a ≤ b →
      ((a : ℚ) / (h : ℚ)) * cfg.pageHeightCm ≤
        ((b : ℚ) / (h : ℚ)) * cfg.pageHeightCm := by
    intro a b hab
    have h1 : (a : ℚ) ≤ (b : ℚ) := by exact_mod_cast hab
    have h2 : (a : ℚ) / (h : ℚ) ≤ (b : ℚ) / (h : ℚ) :=
      div_le_div_of_nonneg_right h1 (by positivity)
    exact mul_le_mul_of_nonneg_right h2 hH
  constructor
  · unfold detectZones
    rw [List.chain'_map]
    refine List.Chain'.imp ?_ hruns
    intro r1 r2 hr
    exact format_mono cfg.precision (hmark r1.2 r2.1 hr)
  · unfold detectZones
    rw [List.chain'_map]
    have hruns' := List.Chain'.iff_mem.mp hruns
    refine List.Chain'.imp ?_ hruns'
    intro r1 r2 hr
    obtain ⟨h1, _, hr⟩ := hr
    have := hle r1 h1
    exact format_mono cfg.precision (hmark r1.1 r2.1 (le_trans this hr))
end ZoneDetector

namespace ZoneDetector
/-- Run ends never exceed the image height. -/
theorem detectLoop_end_le (isT : ℕ → Bool) (h : ℕ) :
    ∀ (ys : List ℕ) (iz : Bool) (zs : ℕ),
      (∀ y ∈ ys, y ≤ h) →
      ∀ r ∈ detectLoop isT h ys iz zs, r.2 ≤ h := by
  intro ys
  induction ys with
  | nil =>
      intro iz zs _ r hr
      cases iz with
      | false => simp [detectLoop] at hr
      | true =>
          simp [detectLoop] at hr
          rw [hr]
  | cons y ys ih =>
      intro iz zs hbound r hr
      simp only [detectLoop] at hr
      have hbound' : ∀ y' ∈ ys, y' ≤ h :=
        fun y' hy' => hbound y' (List.mem_cons_of_mem _ hy')
      by_cases ht : (isT y && !iz) = true
      · rw [if_pos ht] at hr
        exact ih true y hbound' r hr
      · rw [if_neg ht] at hr
        by_cases hc : (!isT y && iz) = true
        · rw [if_pos hc] at hr
          rcases List.mem_cons.mp hr with hr | hr
          · rw [hr]
            exact hbound y (List.mem_cons_self _ _)
          · exact ih false zs hbound' r hr
        · rw [if_neg hc] at hr
          exact ih iz zs hbound' r hr
end ZoneDetector

/-- Weaving a zone list with its gaps is a permutation of the zones together
with the emitted inter-zone gaps. -/
theorem weave_perm (p : PrecisionType) :
    ∀ zs : List FoldZone,
      (zs ++ ZoneDetector.invertMids p zs).Perm (weave p zs)
  | [] => by simp [weave, ZoneDetector.invertMids]
  | [z] => by simp [weave, ZoneDetector.invertMids]
  | z1 :: z2 :: rest => by
      have ih := weave_perm p (z2 :: rest)
      simp only [weave, ZoneDetector.invertMids]
      set g := if 0 < PrecisionManager.format (z2.startMark - z1.endMark) p then
        [{ startMark := z1.endMark, endMark := z2.startMark,
           height := PrecisionManager.format (z2.startMark - z1.endMark) p :
             FoldZone }] else [] with hg
      refine List.Perm.trans ?_ (List.Perm.cons z1 (List.Perm.append_left g ih))
      have h1 : (z1 :: z2 :: rest) ++ (g ++ ZoneDetector.invertMids p (z2 :: rest))
          = z1 :: ((z2 :: rest) ++ (g ++ ZoneDetector.invertMids p (z2 :: rest))) := by
        simp
      rw [h1]
      refine List.Perm.cons z1 ?_
      rw [← List.append_assoc, ← List.append_assoc]
      exact List.Perm.append_right _ List.perm_append_comm

theorem weave_ne_nil (p : PrecisionType) (z : FoldZone) (t : List FoldZone) :
    weave p (z :: t) ≠ [] := by
  cases t <;> simp [weave]

theorem weave_head (p : PrecisionType) (z : FoldZone) (t : List FoldZone) :
    (weave p (z :: t)).head? = some z := by
  cases t <;> simp [weave]

theorem weave_getLast (p : PrecisionType) :
    ∀ (z : FoldZone) (t : List FoldZone),
      (weave p (z :: t)).getLast? = (z :: t).getLast?
  | z, [] => by simp [weave]
  | z1, z2 :: rest => by
      have ih := weave_getLast p z2 rest
      simp only [weave]
      rw [show (z1 ::
          ((if 0 < PrecisionManager.format (z2.startMark - z1.endMark) p then
              [{ startMark := z1.endMark, endMark := z2.startMark,
                 height := PrecisionManager.format (z2.startMark - z1.endMark) p :
                   FoldZone }]
            else []) ++ weave p (z2 :: rest)))
          = ((z1 ::
              (if 0 < PrecisionManager.format (z2.startMark - z1.endMark) p then
                [{ startMark := z1.endMark, endMark := z2.startMark,
                   height := PrecisionManager.format (z2.startMark - z1.endMark) p :
                     FoldZone }]
              else [])) ++ weave p (z2 :: rest)) by simp]
      rw [List.getLast?_append_of_ne_nil _ (weave_ne_nil p z2 rest), ih,
        List.getLast?_cons_cons]

/-- On a grid-aligned, ordered zone list, the weave is a perfect tiling:
consecutive elements meet exactly, and every element is a valid interval. -/
theorem weave_chain (p : PrecisionType) :
    ∀ zs : List FoldZone,
      (∀ z ∈ zs, z.startMark ≤ z.endMark) →
      List.Chain' (fun a b => a.endMark ≤ b.startMark) zs →
      (∀ z ∈ zs, (∃ k : ℤ, z.startMark = k * gridStep p) ∧
        (∃ k : ℤ, z.endMark = k * gridStep p)) →
      List.Chain' (fun a b => a.endMark = b.startMark) (weave p zs) ∧
      ∀ z ∈ weave p zs, z.startMark ≤ z.endMark
  | [] => by intro _ _ _; simp [weave]
  | [z] => by
      intro hz _ _
      refine ⟨by simp [weave], ?_⟩
      intro z' hz'
      simp only [weave, List.mem_singleton] at hz'
      rw [hz']
      exact hz z (List.mem_singleton_self z)
  | z1 :: z2 :: rest => by
      intro hz hchain hgrid
      have hz' : ∀ z ∈ z2 :: rest, z.startMark ≤ z.endMark :=
        fun z hmem => hz z (List.mem_cons_of_mem _ hmem)
      have hchain' := (List.chain'_cons.mp hchain).2
      have hgrid' : ∀ z ∈ z2 :: rest, (∃ k : ℤ, z.startMark = k * gridStep p) ∧
          (∃ k : ℤ, z.endMark = k * gridStep p) :=
        fun z hmem => hgrid z (List.mem_cons_of_mem _ hmem)
      obtain ⟨ihchain, ihmem⟩ := weave_chain p (z2 :: rest) hz' hchain' hgrid'
      have hadj : z1.endMark ≤ z2.startMark := (List.chain'_cons.mp hchain).1
      obtain ⟨m1, hm1⟩ := (hgrid z1 (List.mem_cons_self _ _)).2
      obtain ⟨k2, hk2⟩ := (hgrid z2 (List.mem_cons_of_mem _ (List.mem_cons_self _ _))).1
      have hdiff : z2.startMark - z1.endMark = ((k2 - m1 : ℤ) : ℚ) * gridStep p := by
        rw [hk2, hm1]
        push_cast
        ring
      have hfmt : PrecisionManager.format (z2.startMark - z1.endMark) p =
          z2.startMark - z1.endMark := by
        rw [hdiff]
        exact format_intMul_step (k2 - m1) p
      simp only [weave]
      by_cases hpos : 0 < PrecisionManager.format (z2.startMark - z1.endMark) p
      · rw [if_pos hpos]
        simp only [List.singleton_append]
        constructor
        · refine List.Chain'.cons rfl ?_
          refine List.Chain'.cons' ihchain ?_
          intro y hy
          have : y = z2 := by
            have := weave_head p z2 rest
            rw [this] at hy
            simpa using hy.symm
          rw [this]
        · intro z hmem
          simp only [List.mem_cons, List.not_mem_nil, or_false] at hmem
          rcases hmem with h | h | h
          · rw [h]; exact hz z1 (List.mem_cons_self _ _)
          · rw [h]; exact hadj
          · exact ihmem z h
      · rw [if_neg hpos]
        simp only [List.nil_append]
        have heq : z1.endMark = z2.startMark := by
          rw [hfmt] at hpos
          have : z2.startMark - z1.endMark ≤ 0 := le_of_not_lt hpos
          linarith
        constructor
        · refine List.Chain'.cons' ihchain ?_
          intro y hy
          have : y = z2 := by
            have := weave_head p z2 rest
            rw [this] at hy
            simpa using hy.symm
          rw [this]
          exact heq
        · intro z hmem
          rcases List.mem_cons.mp hmem with h | h
          · rw [h]; exact hz z1 (List.mem_cons_self _ _)
          · exact ihmem z h

/-- Pixel-to-cm raw conversion is monotone in the pixel for a nonnegative
page height. -/
theorem rawMark_mono (h : ℕ) {H : ℚ} (hH : 0 ≤ H) {a b : ℕ} (hab : a ≤ b) :
    ((a : ℚ) / (h : ℚ)) * H ≤ ((b : ℚ) / (h : ℚ)) * H := by
  have h1 : (a : ℚ) ≤ (b : ℚ) := by exact_mod_cast hab
  have h2 : (a : ℚ) / (h : ℚ) ≤ (b : ℚ) / (h : ℚ) :=
    div_le_div_of_nonneg_right h1 (by positivity)
  exact mul_le_mul_of_nonneg_right h2 hH

/-- Basic interval facts about every zone `ZoneDetector.detectZones` emits,
when the page height is nonnegative and a fixed point of `format`: marks are
within `[0, pageHeightCm]`, ordered, and on the precision grid. -/
theorem detectZones_facts (cfg : ZoneDetector.DetectionConfig)
    (hH : 0 ≤ cfg.pageHeightCm)
    (hfix : PrecisionManager.format cfg.pageHeightCm cfg.precision =
      cfg.pageHeightCm) :
    ∀ z ∈ ZoneDetector.detectZones cfg,
      0 ≤ z.startMark ∧ z.startMark ≤ z.endMark ∧
      z.endMark ≤ cfg.pageHeightCm ∧
      (∃ k : ℤ, z.startMark = k * gridStep cfg.precision) ∧
      (∃ k : ℤ, z.endMark = k * gridStep cfg.precision) := by
  intro z hz
  set h := cfg.imageData.height with hhdef
  unfold ZoneDetector.detectZones at hz
  obtain ⟨r, hrmem, hrz⟩ := List.mem_map.mp hz
  have hsort : List.Pairwise (· < ·) (List.range h) := List.pairwise_lt_range h
  have hbound : ∀ y ∈ List.range h, y ≤ h :=
    fun y hy => le_of_lt (List.mem_range.mp hy)
  have hle := ZoneDetector.detectLoop_start_le_end (ZoneDetector.isTargetPixel cfg)
    h (List.range h) false 0 hsort hbound (by simp) r hrmem
  have hend := ZoneDetector.detectLoop_end_le (ZoneDetector.isTargetPixel cfg)
    h (List.range h) false 0 hbound r hrmem
  subst hrz
  unfold ZoneDetector.createZone
  simp only
  refine ⟨?_, ?_, ?_, ?_, ?_⟩
  · have h0 : (0 : ℚ) ≤ ((r.1 : ℚ) / (h : ℚ)) * cfg.pageHeightCm := by positivity
    calc (0 : ℚ) = PrecisionManager.format 0 cfg.precision :=
          (format_zero cfg.precision).symm
      _ ≤ _ := format_mono cfg.precision h0
  · exact format_mono cfg.precision (rawMark_mono h hH hle)
  · have hraw : ((r.2 : ℚ) / (h : ℚ)) * cfg.pageHeightCm ≤ cfg.pageHeightCm := by
      rcases Nat.eq_zero_or_pos h with h0 | hpos
      · have : r.2 = 0 := Nat.le_zero.mp (h0 ▸ hend)
        rw [this, h0]
        simpa using hH
      · have hd : (r.2 : ℚ) / (h : ℚ) ≤ 1 := by
          rw [div_le_one (by exact_mod_cast hpos)]
          exact_mod_cast hend
        calc ((r.2 : ℚ) / (h : ℚ)) * cfg.pageHeightCm
            ≤ 1 * cfg.pageHeightCm := mul_le_mul_of_nonneg_right hd hH
          _ = cfg.pageHeightCm := one_mul _
    calc PrecisionManager.format (((r.2 : ℚ) / (h : ℚ)) * cfg.pageHeightCm)
          cfg.precision
        ≤ PrecisionManager.format cfg.pageHeightCm cfg.precision :=
          format_mono cfg.precision hraw
      _ = cfg.pageHeightCm := hfix
  · exact format_eq_intMul _ _
  · exact format_eq_intMul _ _

/-- Every gap `invertMids` emits has strictly positive height and extent,
when the zone list is ordered with grid-aligned marks. -/
theorem invertMids_facts (p : PrecisionType) :
    ∀ zs : List FoldZone,
      List.Chain' (fun a b => a.endMark ≤ b.startMark) zs →
      (∀ z ∈ zs, (∃ k : ℤ, z.startMark = k * gridStep p) ∧
        (∃ k : ℤ, z.endMark = k * gridStep p)) →
      ∀ g ∈ ZoneDetector.invertMids p zs, 0 < g.height ∧ g.startMark < g.endMark
  | [] => by intro _ _ g hg; simp [ZoneDetector.invertMids] at hg
  | [z] => by intro _ _ g hg; simp [ZoneDetector.invertMids] at hg
  | z1 :: z2 :: rest => by
      intro hchain hgrid g hg
      have hchain' := (List.chain'_cons.mp hchain).2
      have hgrid' : ∀ z ∈ z2 :: rest, (∃ k : ℤ, z.startMark = k * gridStep p) ∧
          (∃ k : ℤ, z.endMark = k * gridStep p) :=
        fun z hmem => hgrid z (List.mem_cons_of_mem _ hmem)
      have hadj : z1.endMark ≤ z2.startMark := (List.chain'_cons.mp hchain).1
      obtain ⟨m1, hm1⟩ := (hgrid z1 (List.mem_cons_self _ _)).2
      obtain ⟨k2, hk2⟩ :=
        (hgrid z2 (List.mem_cons_of_mem _ (List.mem_cons_self _ _))).1
      have hdiff : z2.startMark - z1.endMark = ((k2 - m1 : ℤ) : ℚ) * gridStep p := by
        rw [hk2, hm1]
        push_cast
        ring
      have hfmt : PrecisionManager.format (z2.startMark - z1.endMark) p =
          z2.startMark - z1.endMark := by
        rw [hdiff]
        exact format_intMul_step (k2 - m1) p
      simp only [ZoneDetector.invertMids, List.mem_append] at hg
      rcases hg with hg | hg
      · by_cases hpos : 0 < PrecisionManager.format (z2.startMark - z1.endMark) p
        · rw [if_pos hpos] at hg
          simp only [List.mem_singleton] at hg
          subst hg
          refine ⟨hpos, ?_⟩
          simp only
          rw [hfmt] at hpos
          linarith
        · rw [if_neg hpos] at hg
          simp at hg
      · exact invertMids_facts p (z2 :: rest) hchain' hgrid' g hg

/-- Every gap `ZoneDetector.invertZones` emits on a nonempty, ordered,
in-bounds, grid-aligned zone list has strictly positive height and extent. -/
theorem invertZones_gap_pos (p : PrecisionType) (H : ℚ) (zs : List FoldZone)
    (hne : zs ≠ [])
    (hmem : ∀ z ∈ zs, 0 ≤ z.startMark ∧ z.startMark ≤ z.endMark ∧
      z.endMark ≤ H ∧ (∃ k : ℤ, z.startMark = k * gridStep p) ∧
      (∃ k : ℤ, z.endMark = k * gridStep p))
    (hchain : List.Chain' (fun a b => a.endMark ≤ b.startMark) zs)
    (hHgrid : ∃ k : ℤ, H = k * gridStep p) :
    ∀ g ∈ ZoneDetector.invertZones zs H p, 0 < g.height ∧ g.startMark < g.endMark := by
  obtain ⟨z0, rest, rfl⟩ := List.exists_cons_of_ne_nil hne
  intro g hg
  simp only [ZoneDetector.invertZones, List.mem_append] at hg
  rcases hg with (hg | hg) | hg
  · by_cases hlead : 0 < z0.startMark
    · rw [if_pos hlead] at hg
      simp only [List.mem_singleton] at hg
      subst hg
      obtain ⟨k0, hk0⟩ := (hmem z0 (List.mem_cons_self _ _)).2.2.2.1
      refine ⟨?_, by simpa using hlead⟩
      simp only
      rw [hk0]
      rw [hk0] at hlead
      rwa [format_intMul_step k0 p]
    · rw [if_neg hlead] at hg
      simp at hg
  · exact invertMids_facts p (z0 :: rest) hchain
      (fun z hz => ⟨(hmem z hz).2.2.2.1, (hmem z hz).2.2.2.2⟩) g hg
  · set lastZone := (z0 :: rest).getLast (List.cons_ne_nil z0 rest) with hlz
    have hlmem : lastZone ∈ z0 :: rest := List.getLast_mem _
    by_cases htrail : lastZone.endMark < H
    · rw [if_pos htrail] at hg
      simp only [List.mem_singleton] at hg
      subst hg
      obtain ⟨kH, hkH⟩ := hHgrid
      obtain ⟨m, hm⟩ := (hmem lastZone hlmem).2.2.2.2
      refine ⟨?_, by simpa using htrail⟩
      simp only
      have hd : H - lastZone.endMark = ((kH - m : ℤ) : ℚ) * gridStep p := by
        rw [hkH, hm]
        push_cast
        ring
      rw [hd, format_intMul_step]
      rw [← hd]
      linarith
    · rw [if_neg htrail] at hg
      simp at hg

/-- Assembly of the complementarity witness: for a nonempty, ordered,
in-bounds, grid-aligned zone list, the zones together with
`ZoneDetector.invertZones` tile `[0, H]` exactly once. -/
theorem cover_assembly (p : PrecisionType) (H : ℚ) (zs : List FoldZone)
    (hne : zs ≠ [])
    (hmem : ∀ z ∈ zs, 0 ≤ z.startMark ∧ z.startMark ≤ z.endMark ∧
      z.endMark ≤ H ∧ (∃ k : ℤ, z.startMark = k * gridStep p) ∧
      (∃ k : ℤ, z.endMark = k * gridStep p))
    (hchain : List.Chain' (fun a b => a.endMark ≤ b.startMark) zs) :
    unionCoversOnce zs (ZoneDetector.invertZones zs H p) H := by
  obtain ⟨z0, rest, rfl⟩ := List.exists_cons_of_ne_nil hne
  obtain ⟨wchain, wmem⟩ := weave_chain p (z0 :: rest)
    (fun z hz => (hmem z hz).2.1) hchain
    (fun z hz => ⟨(hmem z hz).2.2.2.1, (hmem z hz).2.2.2.2⟩)
  have hz0 := hmem z0 (List.mem_cons_self _ _)
  have hlmem : (z0 :: rest).getLast (List.cons_ne_nil z0 rest) ∈ z0 :: rest :=
    List.getLast_mem _
  have hlast := hmem _ hlmem
  have hLne : weave p (z0 :: rest) ≠ [] := weave_ne_nil p z0 rest
  have hLhead : (weave p (z0 :: rest)).head? = some z0 := weave_head p z0 rest
  have hLlast : (weave p (z0 :: rest)).getLast? =
      some ((z0 :: rest).getLast (List.cons_ne_nil z0 rest)) := by
    rw [weave_getLast p z0 rest,
      List.getLast?_eq_getLast_of_ne_nil (List.cons_ne_nil z0 rest)]
  simp only [ZoneDetector.invertZones]
  set g0 : FoldZone :=
    { startMark := 0, endMark := z0.startMark,
      height := PrecisionManager.format z0.startMark p } with hg0
  set gt : FoldZone :=
    { startMark := ((z0 :: rest).getLast (List.cons_ne_nil z0 rest)).endMark,
      endMark := H,
      height := PrecisionManager.format
        (H - ((z0 :: rest).getLast (List.cons_ne_nil z0 rest)).endMark) p } with hgt
  set lead := if 0 < z0.startMark then [g0] else ([] : List FoldZone) with hlead
  set trail :=
    if ((z0 :: rest).getLast (List.cons_ne_nil z0 rest)).endMark < H then [gt]
    else ([] : List FoldZone) with htrail
  refine ⟨lead ++ weave p (z0 :: rest) ++ trail, ?_, ?_, ?_, ?_, ?_⟩
  · -- permutation
    have A := weave_perm p (z0 :: rest)
    have B : ((z0 :: rest) ++ (lead ++ ZoneDetector.invertMids p (z0 :: rest))).Perm
        (lead ++ weave p (z0 :: rest)) := by
      have B1 : (z0 :: rest) ++ (lead ++ ZoneDetector.invertMids p (z0 :: rest))
          = ((z0 :: rest) ++ lead) ++ ZoneDetector.invertMids p (z0 :: rest) :=
        (List.append_assoc _ _ _).symm
      have B2 : (((z0 :: rest) ++ lead) ++
            ZoneDetector.invertMids p (z0 :: rest)).Perm
          ((lead ++ (z0 :: rest)) ++ ZoneDetector.invertMids p (z0 :: rest)) :=
        List.Perm.append_right _ List.perm_append_comm
      have B3 : (lead ++ (z0 :: rest)) ++ ZoneDetector.invertMids p (z0 :: rest)
          = lead ++ ((z0 :: rest) ++ ZoneDetector.invertMids p (z0 :: rest)) :=
        List.append_assoc _ _ _
      have B4 : (lead ++ ((z0 :: rest) ++
            ZoneDetector.invertMids p (z0 :: rest))).Perm
          (lead ++ weave p (z0 :: rest)) :=
        List.Perm.append_left _ A
      rw [B1]
      exact B2.trans (B3 ▸ B4)
    have C1 : (z0 :: rest) ++ (lead ++ ZoneDetector.invertMids p (z0 :: rest) ++ trail)
        = ((z0 :: rest) ++ (lead ++ ZoneDetector.invertMids p (z0 :: rest))) ++ trail :=
      (List.append_assoc _ _ _).symm
    rw [C1]
    exact List.Perm.append_right trail B
  · -- head is 0
    by_cases hl : 0 < z0.startMark
    · rw [hlead, if_pos hl]
      simp [hg0]
    · rw [hlead, if_neg hl]
      have hz00 : z0.startMark = 0 := le_antisymm (not_lt.mp hl) hz0.1
      obtain ⟨w, L', hw⟩ := List.exists_cons_of_ne_nil hLne
      have hwz : w = z0 := by
        rw [hw] at hLhead
        simpa using hLhead
      rw [List.nil_append, hw, List.cons_append]
      simp [hwz, hz00]
  · -- last is H
    by_cases ht : ((z0 :: rest).getLast (List.cons_ne_nil z0 rest)).endMark < H
    · rw [htrail, if_pos ht]
      rw [List.getLast?_append_of_ne_nil _ (by simp : [gt] ≠ [])]
      simp [hgt]
    · rw [htrail, if_neg ht]
      have hEq : ((z0 :: rest).getLast (List.cons_ne_nil z0 rest)).endMark = H :=
        le_antisymm hlast.2.2.1 (not_lt.mp ht)
      rw [List.append_nil,
        List.getLast?_append_of_ne_nil _ hLne, hLlast]
      simp [hEq]
  · -- chain
    refine List.chain'_append.mpr ⟨List.chain'_append.mpr ⟨?_, wchain, ?_⟩, ?_, ?_⟩
    · rw [hlead]
      split <;> simp
    · intro x hx y hy
      rw [hLhead] at hy
      simp only [Option.mem_def, Option.some_inj] at hy
      subst hy
      rw [hlead] at hx
      by_cases hl : 0 < z0.startMark
      · rw [if_pos hl] at hx
        simp only [List.getLast?_singleton, Option.mem_def, Option.some_inj] at hx
        subst hx
        rfl
      · rw [if_neg hl] at hx
        simp at hx
    · rw [htrail]
      split <;> simp
    · intro x hx y hy
      rw [List.getLast?_append_of_ne_nil _ hLne, hLlast] at hx
      simp only [Option.mem_def, Option.some_inj] at hx
      subst hx
      rw [htrail] at hy
      by_cases ht : ((z0 :: rest).getLast (List.cons_ne_nil z0 rest)).endMark < H
      · rw [if_pos ht] at hy
        simp only [List.head?_cons, Option.mem_def, Option.some_inj] at hy
        subst hy
        rfl
      · rw [if_neg ht] at hy
        simp at hy
  · -- every element is an interval
    intro z hzmem
    simp only [List.mem_append] at hzmem
    rcases hzmem with (hzmem | hzmem) | hzmem
    · rw [hlead] at hzmem
      by_cases hl : 0 < z0.startMark
      · rw [if_pos hl] at hzmem
        simp only [List.mem_singleton] at hzmem
        subst hzmem
        exact hz0.1
      · rw [if_neg hl] at hzmem
        simp at hzmem
    · exact wmem z hzmem
    · rw [htrail] at hzmem
      by_cases ht : ((z0 :: rest).getLast (List.cons_ne_nil z0 rest)).endMark < H
      · rw [if_pos ht] at hzmem
        simp only [List.mem_singleton] at hzmem
        subst hzmem
        exact hlast.2.2.1
      · rw [if_neg ht] at hzmem
        simp at hzmem

/-- C4 (amended): for every zone list produced by `ZoneDetector.detectZones`
on a nonnegative page height that is a fixed point of `PrecisionManager.format`
(i.e. lies on the precision grid), `invertZones` yields the whole page for an
empty list, emits only gaps of strictly positive height, and the union of the
zones and the inverted zones covers `[0, pageHeightCm]` exactly once. -/
theorem detect_invert_complement (cfg : ZoneDetector.DetectionConfig)
    (hH : 0 ≤ cfg.pageHeightCm)
    (hfix : PrecisionManager.format cfg.pageHeightCm cfg.precision =
      cfg.pageHeightCm) :
    (ZoneDetector.detectZones cfg = [] →
      ZoneDetector.invertZones (ZoneDetector.detectZones cfg) cfg.pageHeightCm
          cfg.precision =
        [{ startMark := 0, endMark := cfg.pageHeightCm,
           height := cfg.pageHeightCm }]) ∧
    (ZoneDetector.detectZones cfg ≠ [] →
      ∀ g ∈ ZoneDetector.invertZones (ZoneDetector.detectZones cfg)
          cfg.pageHeightCm cfg.precision,
        0 < g.height ∧ g.startMark < g.endMark) ∧
    unionCoversOnce (ZoneDetector.detectZones cfg)
      (ZoneDetector.invertZones (ZoneDetector.detectZones cfg) cfg.pageHeightCm
        cfg.precision) cfg.pageHeightCm := by
  have hfacts := detectZones_facts cfg hH hfix
  have hchain := (ZoneDetector.detectZones_ordered_core cfg hH).1
  refine ⟨?_, ?_, ?_⟩
  · intro hnil
    rw [hnil]
    rfl
  · intro hne
    refine invertZones_gap_pos cfg.precision cfg.pageHeightCm _ hne hfacts hchain ?_
    obtain ⟨k, hk⟩ := format_eq_intMul cfg.pageHeightCm cfg.precision
    exact ⟨k, by rw [← hfix, hk]⟩
  · by_cases hne : ZoneDetector.detectZones cfg = []
    · rw [hne]
      refine ⟨[⟨0, cfg.pageHeightCm, cfg.pageHeightCm, none⟩], ?_, ?_, ?_, ?_, ?_⟩
      · simp [ZoneDetector.invertZones]
      · simp
      · simp
      · simp
      · intro z hz
        simp only [List.mem_singleton] at hz
        rw [hz]
        exact hH
    · exact cover_assembly _ _ _ hne hfacts hchain

/-- C4 counterexample: on the page height 0.996 cm (not on the 0.1 mm grid),
the single detected zone is rounded up to end at 1.0 cm, overshooting the
page, and the union of the zones and the inverted zones no longer covers
`[0, pageHeightCm]` exactly: the complementarity claim is false as stated
for arbitrary page heights. -/
theorem detect_invert_complement_counterexample :
    ¬ unionCoversOnce (ZoneDetector.detectZones cfgOffGrid)
      (ZoneDetector.invertZones (ZoneDetector.detectZones cfgOffGrid)
        cfgOffGrid.pageHeightCm cfgOffGrid.precision) cfgOffGrid.pageHeightCm := by
  have hruns : ZoneDetector.detectLoop (ZoneDetector.isTargetPixel cfgOffGrid) 1
      (List.range 1) false 0 = [(0, 1)] := by decide
  have hz : ZoneDetector.detectZones cfgOffGrid =
      [{ startMark := 0, endMark := 1, height := 1 }] := by
    unfold ZoneDetector.detectZones
    show (ZoneDetector.detectLoop (ZoneDetector.isTargetPixel cfgOffGrid) 1
      (List.range 1) false 0).map _ = _
    rw [hruns]
    simp only [List.map_cons, List.map_nil]
    norm_num [ZoneDetector.createZone, PrecisionManager.format,
      PrecisionManager.round, jsRound, cfgOffGrid, imgBlack1]
  have hinv : ZoneDetector.invertZones
      [{ startMark := 0, endMark := 1, height := 1 : FoldZone }]
      cfgOffGrid.pageHeightCm cfgOffGrid.precision = [] := by
    simp only [ZoneDetector.invertZones, ZoneDetector.invertMids]
    norm_num [cfgOffGrid]
  rintro ⟨merged, hperm, hcov⟩
  rw [hz, hinv] at hperm
  simp only [List.append_nil] at hperm
  have hm : merged = [{ startMark := 0, endMark := 1, height := 1 }] :=
    (List.Perm.eq_singleton hperm.symm)
  rw [hm] at hcov
  have := hcov.2.1
  simp only [List.getLast?_singleton, Option.map_some, Option.some_inj] at this
  have hhh : (1 : ℚ) = 249/250 := by
    simpa [cfgOffGrid] using this
  norm_num at hhh

/-- C3: for every pixel grid, column, threshold, polarity and (nonnegative)
page height, the zone list returned by `ZoneDetector.detectZones` is sorted
by increasing `startMark` and non-overlapping —
`zones[i].endMark ≤ zones[i+1].startMark` for every adjacent pair — even
after precision rounding of the marks. -/
theorem detectZones_sorted_nonoverlapping (cfg : ZoneDetector.DetectionConfig)
    (hH : 0 ≤ cfg.pageHeightCm) :
    List.Chain' (fun z1 z2 => z1.endMark ≤ z2.startMark)
      (ZoneDetector.detectZones cfg) ∧
    List.Chain' (fun z1 z2 => z1.startMark ≤ z2.startMark)
      (ZoneDetector.detectZones cfg) :=
  ZoneDetector.detectZones_ordered_core cfg hH

/-- Witness for the C3 ordering theorem at a concrete detection config. -/
theorem detectZones_ordered_witness :
    (0 : ℚ) ≤ cfgStripes.pageHeightCm ∧
    (List.Chain' (fun z1 z2 => z1.endMark ≤ z2.startMark)
        (ZoneDetector.detectZones cfgStripes) ∧
      List.Chain' (fun z1 z2 => z1.startMark ≤ z2.startMark)
        (ZoneDetector.detectZones cfgStripes)) := by
  have h1 : (0 : ℚ) ≤ cfgStripes.pageHeightCm := by norm_num [cfgStripes]
  exact ⟨h1, detectZones_sorted_nonoverlapping cfgStripes h1⟩

/-- Witness for the C4 complementarity theorem at a concrete detection
config whose page height lies on the precision grid. -/
theorem detect_invert_complement_witness :
    (0 : ℚ) ≤ cfgStripes.pageHeightCm ∧
    PrecisionManager.format cfgStripes.pageHeightCm cfgStripes.precision =
      cfgStripes.pageHeightCm ∧
    unionCoversOnce (ZoneDetector.detectZones cfgStripes)
      (ZoneDetector.invertZones (ZoneDetector.detectZones cfgStripes)
        cfgStripes.pageHeightCm cfgStripes.precision)
      cfgStripes.pageHeightCm := by
  have h1 : (0 : ℚ) ≤ cfgStripes.pageHeightCm := by norm_num [cfgStripes]
  have h2 : PrecisionManager.format cfgStripes.pageHeightCm cfgStripes.precision =
      cfgStripes.pageHeightCm := by
    norm_num [cfgStripes, PrecisionManager.format, PrecisionManager.round, jsRound]
  exact ⟨h1, h2, (detect_invert_complement cfgStripes h1 h2).2.2⟩

/-- `roundValue` at a non-exact precision agrees with
`PrecisionManager.format`. -/
theorem roundValue_ofType (x : ℚ) (p : PrecisionType) :
    roundValue x (Precision.ofType p) = PrecisionManager.format x p := by
  cases p
  · simp only [Precision.ofType, roundValue, PrecisionManager.format,
      PrecisionManager.round]
    have h2 : ((jsRound (x * 10 * 10) : ℚ) / 10 / 10 * 100) =
        ((jsRound (x * 10 * 10) : ℤ) : ℚ) := by ring
    rw [h2, jsRound_intCast]
    ring
  · simp only [Precision.ofType, roundValue, PrecisionManager.format,
      PrecisionManager.round]
    have h2 : ((jsRound (x * 10 * 2) : ℚ) / 2 / 10 * 100) =
        ((5 * jsRound (x * 10 * 2) : ℤ) : ℚ) := by push_cast; ring
    rw [h2, jsRound_intCast]
    push_cast
    ring
  · simp only [Precision.ofType, roundValue, PrecisionManager.format,
      PrecisionManager.round]
    have h2 : ((jsRound (x * 10) : ℚ) / 10 * 100) =
        ((10 * jsRound (x * 10) : ℤ) : ℚ) := by push_cast; ring
    rw [h2, jsRound_intCast]
    push_cast
    ring

/-- The core scanner's runs are exactly the spec machine's runs with each
(inclusive) end shifted one pixel down: the core closes at `y` where the
spec's convention closes at `y − 1`, and at `height` where the spec closes
at `height − 1`. -/
theorem detectLoop_eq_specScanGo (isT : ℕ → Bool) (h : ℕ) :
    ∀ (ys : List ℕ) (iz : Bool) (zs : ℕ),
      (∀ y ∈ ys, 1 ≤ y) → 1 ≤ h →
      ZoneDetector.detectLoop isT h ys iz zs =
        (specScanGo isT h ys iz zs).map (fun r => (r.1, r.2 + 1)) := by
  intro ys
  induction ys with
  | nil =>
      intro iz zs _ hh
      cases iz with
      | false => simp [ZoneDetector.detectLoop, specScanGo]
      | true =>
          simp only [ZoneDetector.detectLoop, specScanGo, if_pos,
            List.map_cons, List.map_nil]
          rw [Nat.sub_add_cancel hh]
  | cons y ys ih =>
      intro iz zs hys hh
      have hys' : ∀ y' ∈ ys, 1 ≤ y' :=
        fun y' hy' => hys y' (List.mem_cons_of_mem _ hy')
      simp only [ZoneDetector.detectLoop, specScanGo]
      by_cases ht : (isT y && !iz) = true
      · rw [if_pos ht, if_pos ht]
        exact ih true y hys' hh
      · rw [if_neg ht, if_neg ht]
        by_cases hc : (!isT y && iz) = true
        · rw [if_pos hc, if_pos hc]
          rw [List.map_cons]
          rw [ih false zs hys' hh]
          have hy1 : 1 ≤ y := hys y (List.mem_cons_self _ _)
          rw [Nat.sub_add_cancel hy1]
        · rw [if_neg hc, if_neg hc]
          exact ih iz zs hys' hh

/-- Top-level form of the end-shift relation on a full column scan. -/
theorem detectLoop_range_eq_specScanRuns (isT : ℕ → Bool) (h : ℕ) :
    ZoneDetector.detectLoop isT h (List.range h) false 0 =
      (specScanRuns isT h).map (fun r => (r.1, r.2 + 1)) := by
  cases h with
  | zero => simp [ZoneDetector.detectLoop, specScanRuns, specScanGo]
  | succ n =>
      unfold specScanRuns
      rw [List.range_succ_eq_map]
      have hys : ∀ y ∈ (List.range n).map Nat.succ, 1 ≤ y := by
        intro y hy
        obtain ⟨m, _, rfl⟩ := List.mem_map.mp hy
        exact Nat.succ_le_succ (Nat.zero_le m)
      have hh : 1 ≤ n + 1 := Nat.succ_le_succ (Nat.zero_le n)
      by_cases h0 : isT 0 = true
      · simp only [ZoneDetector.detectLoop, specScanGo, h0, Bool.not_false,
          Bool.and_true, Bool.and_false, if_true, if_false, Bool.true_and,
          Bool.false_and, Bool.not_true, ite_true, ite_false]
        exact detectLoop_eq_specScanGo isT (n + 1) _ true 0 hys hh
      · have h0' : isT 0 = false := Bool.eq_false_iff.mpr h0
        simp only [ZoneDetector.detectLoop, specScanGo, h0', Bool.not_false,
          Bool.and_true, Bool.and_false, if_true, if_false, Bool.true_and,
          Bool.false_and, Bool.not_true, ite_true, ite_false]
        exact detectLoop_eq_specScanGo isT (n + 1) _ false 0 hys hh

/-- The utils scanner's target predicate coincides with the shared
`specTarget` predicate. -/
theorem matchesDetection_eq_specTarget (params : ZoneDetectionParams) (y : ℕ) :
    matchesDetection params.detectionType params.threshold
        (getPixelGray params.imageData params.columnX y) =
      specTarget params.imageData params.columnX params.threshold
        (params.detectionType == DetectionType.dark) y := by
  cases hdt : params.detectionType <;>
    simp [matchesDetection, specTarget, getPixelGray, hdt]

/-- The utils scanner emits exactly the spec machine's runs, each converted
through `(pixel / height) * pageHeight` and `roundValue` (marks only). -/
theorem detectColumnLoop_marks (params : ZoneDetectionParams)
    (hh : 1 ≤ params.imageData.height) :
    ∀ (ys : List ℕ) (iz : Bool) (zsU : ℤ) (zsC : ℕ),
      (∀ y ∈ ys, 1 ≤ y) →
      (iz = true → zsU = (zsC : ℤ)) →
      (iz = true → 0 ≤ zsU) →
      (detectColumnLoop params ys iz zsU).map (fun z => (z.startMark, z.endMark)) =
        (specScanGo (specTarget params.imageData params.columnX params.threshold
            (params.detectionType == DetectionType.dark))
            params.imageData.height ys iz zsC).map
          (fun r => (roundValue
              ((r.1 : ℚ) / (params.imageData.height : ℚ) * params.pageHeight)
              params.precision,
            roundValue
              ((r.2 : ℚ) / (params.imageData.height : ℚ) * params.pageHeight)
              params.precision)) := by
  intro ys
  induction ys with
  | nil =>
      intro iz zsU zsC _ hiz hnn
      cases iz with
      | false => simp [detectColumnLoop, specScanGo]
      | true =>
          have h0 : (0 : ℤ) ≤ zsU := hnn rfl
          have hne : zsU ≠ -1 := by
            intro heq
            rw [heq] at h0
            norm_num at h0
          simp only [detectColumnLoop, specScanGo, hne, ne_eq,
            not_false_eq_true, and_self, and_true, true_and, ite_true,
            List.map_cons, List.map_nil, createZoneUtils,
            List.cons.injEq, Prod.mk.injEq]
          constructor
          · rw [hiz rfl]
            simp only [pixelToPagePosition]
            norm_num
          · simp only [pixelToPagePosition]
            rw [Nat.cast_sub hh]
            push_cast
            ring_nf
  | cons y ys ih =>
      intro iz zsU zsC hys hiz hnn
      have hys' : ∀ y' ∈ ys, 1 ≤ y' :=
        fun y' hy' => hys y' (List.mem_cons_of_mem _ hy')
      have hT := matchesDetection_eq_specTarget params y
      simp only [detectColumnLoop, specScanGo]
      rw [hT]
      by_cases hc1 : (specTarget params.imageData params.columnX params.threshold
          (params.detectionType == DetectionType.dark) y && !iz) = true
      · rw [if_pos hc1, if_pos hc1]
        exact ih true (y : ℤ) y hys' (fun _ => rfl)
          (fun _ => Int.natCast_nonneg y)
      · rw [if_neg hc1, if_neg hc1]
        by_cases hc2 : (!specTarget params.imageData params.columnX params.threshold
            (params.detectionType == DetectionType.dark) y && iz) = true
        · rw [if_pos hc2, if_pos hc2]
          have hizv : iz = true := (Bool.and_eq_true .. |>.mp hc2).2
          have hy1 : 1 ≤ y := hys y (List.mem_cons_self _ _)
          simp only [List.map_cons]
          rw [ih false (-1) zsC hys' (by simp) (by simp)]
          simp only [createZoneUtils, List.cons.injEq, Prod.mk.injEq]
          refine ⟨⟨?_, ?_⟩, trivial⟩
          · rw [hiz hizv]
            simp only [pixelToPagePosition]
            norm_num
          · simp only [pixelToPagePosition]
            rw [Nat.cast_sub hy1]
            push_cast
            ring_nf
        · rw [if_neg hc2, if_neg hc2]
          exact ih iz zsU zsC hys' hiz hnn

/-- Top-level form: for an in-bounds column, `detectZonesInColumn` emits
exactly the spec machine's inclusive runs, converted and rounded. -/
theorem detectZonesInColumn_marks (params : ZoneDetectionParams)
    (h0 : 0 ≤ params.columnX)
    (h1 : params.columnX < (params.imageData.width : ℤ)) :
    (detectZonesInColumn params).map (fun z => (z.startMark, z.endMark)) =
      (specScanRuns (specTarget params.imageData params.columnX params.threshold
          (params.detectionType == DetectionType.dark))
          params.imageData.height).map
        (fun r => (roundValue
            ((r.1 : ℚ) / (params.imageData.height : ℚ) * params.pageHeight)
            params.precision,
          roundValue
            ((r.2 : ℚ) / (params.imageData.height : ℚ) * params.pageHeight)
            params.precision)) := by
  unfold detectZonesInColumn
  rw [if_neg (by push_neg; exact ⟨h0, h1⟩)]
  cases hht : params.imageData.height with
  | zero => simp [detectColumnLoop, specScanRuns, specScanGo, hht]
  | succ n =>
      unfold specScanRuns
      rw [List.range_succ_eq_map]
      have hys : ∀ y ∈ (List.range n).map Nat.succ, 1 ≤ y := by
        intro y hy
        obtain ⟨m, _, rfl⟩ := List.mem_map.mp hy
        exact Nat.succ_le_succ (Nat.zero_le m)
      have hh : 1 ≤ params.imageData.height := by omega
      have hT := matchesDetection_eq_specTarget params 0
      by_cases h0t : specTarget params.imageData params.columnX params.threshold
          (params.detectionType == DetectionType.dark) 0 = true
      · simp only [detectColumnLoop, specScanGo, hT, h0t, Bool.not_false,
          Bool.and_true, Bool.true_and, Bool.and_false, Bool.false_and,
          Bool.not_true, ite_true, ite_false]
        have := detectColumnLoop_marks params hh ((List.range n).map Nat.succ)
          true ((0 : ℕ) : ℤ) 0 hys (fun _ => rfl) (fun _ => by norm_num)
        rw [hht] at this
        simpa using this
      · have h0f : specTarget params.imageData params.columnX params.threshold
            (params.detectionType == DetectionType.dark) 0 = false :=
          Bool.eq_false_iff.mpr h0t
        simp only [detectColumnLoop, specScanGo, hT, h0f, Bool.not_false,
          Bool.and_true, Bool.true_and, Bool.and_false, Bool.false_and,
          Bool.not_true, ite_true, ite_false]
        have := detectColumnLoop_marks params hh ((List.range n).map Nat.succ)
          false (-1) 0 hys (by simp) (by simp)
        rw [hht] at this
        simpa using this

/-- C1 (amended): the closing convention of the two zone detectors, for
every grid, column, threshold, page height, polarity and precision.
`detectZonesInColumn` (the utils detector) behaves exactly as the claim
states: on a transition target→not-target at row `y` it closes the zone at
pixel `y − 1` and converts the inclusive range `[zoneStart, y − 1]` via
`(pixel / height) * pageHeightCm` with precision formatting, closing a
still-open zone at `height − 1`.  The core `ZoneDetector.detectZones`
instead closes at pixel `y` (exclusive end) and at `height`: its marks are
the spec runs' with each end shifted one pixel down the page. -/
theorem zoneDetector_closing_convention (img : ImageData) (colX : ℤ)
    (thr H : ℚ) (d : Bool) (p : PrecisionType) :
    ((ZoneDetector.detectZones
        { imageData := img, columnX := colX, threshold := thr,
          pageHeightCm := H, precision := p, detectDark := d }).map
        (fun z => (z.startMark, z.endMark)) =
      (specScanRuns (specTarget img colX thr d) img.height).map
        (fun r => (PrecisionManager.format
            ((r.1 : ℚ) / (img.height : ℚ) * H) p,
          PrecisionManager.format (((r.2 : ℚ) + 1) / (img.height : ℚ) * H) p))) ∧
    (0 ≤ colX → colX < (img.width : ℤ) →
      (detectZonesInColumn
          { imageData := img, columnX := colX, pageHeight := H,
            threshold := thr, precision := Precision.ofType p,
            detectionType :=
              if d then DetectionType.dark else DetectionType.light }).map
          (fun z => (z.startMark, z.endMark)) =
        claimC1Marks (specTarget img colX thr d) img.height H p) := by
  constructor
  · have e1 : ZoneDetector.detectZones
        { imageData := img, columnX := colX, threshold := thr,
          pageHeightCm := H, precision := p, detectDark := d } =
        (ZoneDetector.detectLoop (specTarget img colX thr d) img.height
          (List.range img.height) false 0).map
          (fun r => ZoneDetector.createZone r.1 r.2 img.height H p) := rfl
    rw [e1, detectLoop_range_eq_specScanRuns, List.map_map, List.map_map]
    refine List.map_congr_left ?_
    intro r _
    simp only [Function.comp_apply, ZoneDetector.createZone, Prod.mk.injEq]
    constructor
    · trivial
    · have : ((r.2 + 1 : ℕ) : ℚ) = (r.2 : ℚ) + 1 := by push_cast; ring
      rw [this]
  · intro hc0 hc1
    have hdt : ((ZoneDetectionParams.mk img colX H thr (Precision.ofType p)
        (if d then DetectionType.dark else DetectionType.light)).detectionType ==
          DetectionType.dark) = d := by
      cases d <;> rfl
    have h := detectZonesInColumn_marks
      (ZoneDetectionParams.mk img colX H thr (Precision.ofType p)
        (if d then DetectionType.dark else DetectionType.light)) hc0 hc1
    rw [hdt] at h
    rw [h]
    unfold claimC1Marks
    refine List.map_congr_left ?_
    intro r _
    rw [roundValue_ofType, roundValue_ofType]

/-- C1 counterexample: on `imgStep` (dark row 0, light row 1) the core
`ZoneDetector.detectZones` does not close the zone at pixel `y − 1 = 0`
(which would give marks `(0, 0)`): it closes it at pixel `y = 1`, producing
marks `(0, 10)` on a 20 cm page of 2 pixel rows. -/
theorem zoneDetector_closing_counterexample :
    ¬ ((ZoneDetector.detectZones cfgStep).map (fun z => (z.startMark, z.endMark)) =
      claimC1Marks (specTarget imgStep 0 128 true) imgStep.height
        cfgStep.pageHeightCm cfgStep.precision) := by
  have hr1 : ZoneDetector.detectLoop (specTarget imgStep 0 128 true) 2
      (List.range 2) false 0 = [(0, 1)] := by decide
  have hr2 : specScanRuns (specTarget imgStep 0 128 true) 2 = [(0, 0)] := by decide
  have hL : (ZoneDetector.detectZones cfgStep).map
      (fun z => (z.startMark, z.endMark)) = [((0 : ℚ), (10 : ℚ))] := by
    have e1 : ZoneDetector.detectZones cfgStep =
        (ZoneDetector.detectLoop (specTarget imgStep 0 128 true) 2
          (List.range 2) false 0).map
          (fun r => ZoneDetector.createZone r.1 r.2 2 20 .p01mm) := rfl
    rw [e1, hr1]
    simp only [List.map_cons, List.map_nil]
    norm_num [ZoneDetector.createZone, PrecisionManager.format,
      PrecisionManager.round, jsRound]
  have hR : claimC1Marks (specTarget imgStep 0 128 true) imgStep.height
      cfgStep.pageHeightCm cfgStep.precision = [((0 : ℚ), (0 : ℚ))] := by
    unfold claimC1Marks
    have e2 : imgStep.height = 2 := rfl
    rw [e2, hr2]
    simp only [List.map_cons, List.map_nil]
    norm_num [PrecisionManager.format, PrecisionManager.round, jsRound,
      cfgStep]
  intro h
  rw [hL, hR] at h
  simp only [List.cons.injEq, Prod.mk.injEq] at h
  norm_num at h

/-- Witness for the utils-detector half of the C1 closing-convention
theorem at a concrete in-bounds column. -/
theorem zoneDetector_closing_convention_witness :
    (0 : ℤ) ≤ 0 ∧ (0 : ℤ) < (imgStep.width : ℤ) ∧
    (detectZonesInColumn
        { imageData := imgStep, columnX := 0, pageHeight := 20,
          threshold := 128, precision := Precision.ofType .p01mm,
          detectionType := if true then DetectionType.dark
            else DetectionType.light }).map
        (fun z => (z.startMark, z.endMark)) =
      claimC1Marks (specTarget imgStep 0 128 true) imgStep.height 20 .p01mm := by
  refine ⟨le_refl 0, by norm_num [imgStep], ?_⟩
  exact (zoneDetector_closing_convention imgStep 0 128 20 true .p01mm).2
    (le_refl 0) (by norm_num [imgStep])

namespace ShadowFoldMode
/-- Elementwise description of the skip post-processing: the page at
position `i` of the result is the input page at `i`, marked with the skip
flag for index `start + i` and emptied when skipped. -/
theorem applySkip_getElem (t : ShadowFoldType) :
    ∀ (l : List PagePattern) (start i : ℕ),
      (applySkip t start l)[i]? = (l[i]?).map (fun page =>
        let isSkipped := shouldSkipPage (start + i) t
        let page' := { page with isSkipped := some isSkipped }
        if isSkipped then { page' with zones := [], hasContent := false }
        else page')
  | [], _, _ => by simp [applySkip]
  | page :: rest, start, 0 => by
      simp [applySkip]
  | page :: rest, start, i + 1 => by
      have ih := applySkip_getElem t rest (start + 1) i
      simp only [applySkip, List.getElem?_cons_succ, ih]
      have : start + 1 + i = start + (i + 1) := by omega
      rw [this]
end ShadowFoldMode

/-- C6: Shadow Fold skips page `i` (0-indexed) iff `i % 2 = 1` under period
`1:1` and iff `(i + 1) % 3 = 0` under period `2:1`; skipped pages carry
empty zones and `hasContent = false`; in particular the skipped indices are
exactly {1,3,5} among 6 pages under `1:1` and exactly {2,5,8} among 0..8
under `2:1`. -/
theorem shadowFold_skip_spec (ctx : GenerationContext) (i : ℕ)
    (pg : PagePattern)
    (h : (ShadowFoldMode.generatePattern ctx)[i]? = some pg) :
    (pg.isSkipped = some (ShadowFoldMode.shouldSkipPage i
      (ctx.params.shadowFoldType.getD .oneOne))) ∧
    (ShadowFoldMode.shouldSkipPage i (ctx.params.shadowFoldType.getD .oneOne) =
        true →
      pg.zones = [] ∧ pg.hasContent = false) ∧
    (∀ j : ℕ, (ShadowFoldMode.shouldSkipPage j .oneOne = true ↔ j % 2 = 1) ∧
      (ShadowFoldMode.shouldSkipPage j .twoOne = true ↔ (j + 1) % 3 = 0)) ∧
    ((List.range 6).filter
      (fun j => ShadowFoldMode.shouldSkipPage j .oneOne) = [1, 3, 5]) ∧
    ((List.range 9).filter
      (fun j => ShadowFoldMode.shouldSkipPage j .twoOne) = [2, 5, 8]) := by
  unfold ShadowFoldMode.generatePattern at h
  rw [ShadowFoldMode.applySkip_getElem] at h
  simp only [Nat.zero_add] at h
  obtain ⟨base, hbase, hpg⟩ := Option.map_eq_some'.mp h
  refine ⟨?_, ?_, ?_, ?_, ?_⟩
  · by_cases hs : ShadowFoldMode.shouldSkipPage i
        (ctx.params.shadowFoldType.getD .oneOne) = true
    · rw [← hpg]
      simp [hs]
    · rw [← hpg]
      simp [Bool.eq_false_iff.mpr hs, hs]
  · intro hs
    rw [← hpg]
    simp [hs]
  · intro j
    constructor
    · simp [ShadowFoldMode.shouldSkipPage]
    · simp [ShadowFoldMode.shouldSkipPage]
  · decide
  · decide

/-- Witness for the Shadow Fold skip theorem: page index 1 of a 2-page 1:1
generation is skipped, with emptied zones. -/
theorem shadowFold_skip_spec_witness :
    ((ShadowFoldMode.generatePattern ctxLight)[1]? =
      some { page := 2, zones := [], hasContent := false,
             isSkipped := some true }) ∧
    (({ page := 2, zones := [], hasContent := false, isSkipped := some true } :
        PagePattern).isSkipped = some (ShadowFoldMode.shouldSkipPage 1
          (ctxLight.params.shadowFoldType.getD .oneOne))) ∧
    (ShadowFoldMode.shouldSkipPage 1 (ctxLight.params.shadowFoldType.getD
        .oneOne) = true →
      ({ page := 2, zones := [], hasContent := false, isSkipped := some true } :
        PagePattern).zones = [] ∧
      ({ page := 2, zones := [], hasContent := false, isSkipped := some true } :
        PagePattern).hasContent = false) ∧
    (∀ j : ℕ, (ShadowFoldMode.shouldSkipPage j .oneOne = true ↔ j % 2 = 1) ∧
      (ShadowFoldMode.shouldSkipPage j .twoOne = true ↔ (j + 1) % 3 = 0)) ∧
    ((List.range 6).filter
      (fun j => ShadowFoldMode.shouldSkipPage j .oneOne) = [1, 3, 5]) ∧
    ((List.range 9).filter
      (fun j => ShadowFoldMode.shouldSkipPage j .twoOne) = [2, 5, 8]) := by
  have h : (ShadowFoldMode.generatePattern ctxLight)[1]? =
      some { page := 2, zones := [], hasContent := false,
             isSkipped := some true } := by decide
  exact ⟨h, shadowFold_skip_spec ctxLight 1 _ h⟩

/-- C10: Shadow Fold is a frame over the shared base generation: a page the
skip predicate leaves alone keeps exactly the zones, `hasContent` and page
number of the Inverted (base dark-polarity) result for the same column;
only skipped pages are modified (zones emptied, `hasContent` false,
`isSkipped` true). -/
theorem shadowFold_frame (ctx : GenerationContext) (i : ℕ)
    (pg pg' : PagePattern)
    (h : (ShadowFoldMode.generatePattern ctx)[i]? = some pg)
    (h' : (InvertedMode.generatePattern ctx)[i]? = some pg') :
    (ShadowFoldMode.shouldSkipPage i (ctx.params.shadowFoldType.getD .oneOne) =
        false →
      pg.zones = pg'.zones ∧ pg.hasContent = pg'.hasContent ∧
        pg.page = pg'.page) ∧
    (ShadowFoldMode.shouldSkipPage i (ctx.params.shadowFoldType.getD .oneOne) =
        true →
      pg.zones = [] ∧ pg.hasContent = false ∧ pg.isSkipped = some true) := by
  unfold ShadowFoldMode.generatePattern at h
  rw [ShadowFoldMode.applySkip_getElem] at h
  have hbase : (CutModeBase.generatePattern true ctx)[i]? = some pg' := h'
  rw [hbase] at h
  simp only [Nat.zero_add, Option.map_some', Option.map_some,
    Option.some_inj] at h
  constructor
  · intro hs
    rw [← h]
    simp [hs]
  · intro hs
    rw [← h]
    simp [hs]

/-- Witness for the frame theorem: page index 0 of a 2-page 1:1 generation
is not skipped and agrees with the Inverted result. -/
theorem shadowFold_frame_witness :
    ((ShadowFoldMode.generatePattern ctxLight)[0]? =
      some { page := 1, zones := [], hasContent := false,
             isSkipped := some false }) ∧
    ((InvertedMode.generatePattern ctxLight)[0]? =
      some { page := 1, zones := [], hasContent := false }) ∧
    (ShadowFoldMode.shouldSkipPage 0 (ctxLight.params.shadowFoldType.getD
        .oneOne) = false →
      ({ page := 1, zones := [], hasContent := false, isSkipped := some false } :
          PagePattern).zones =
        ({ page := 1, zones := [], hasContent := false } : PagePattern).zones ∧
      ({ page := 1, zones := [], hasContent := false, isSkipped := some false } :
          PagePattern).hasContent =
        ({ page := 1, zones := [], hasContent := false } : PagePattern).hasContent ∧
      ({ page := 1, zones := [], hasContent := false, isSkipped := some false } :
          PagePattern).page =
        ({ page := 1, zones := [], hasContent := false } : PagePattern).page) := by
  have h : (ShadowFoldMode.generatePattern ctxLight)[0]? =
      some { page := 1, zones := [], hasContent := false,
             isSkipped := some false } := by decide
  have h' : (InvertedMode.generatePattern ctxLight)[0]? =
      some { page := 1, zones := [], hasContent := false } := by decide
  exact ⟨h, h', (shadowFold_frame ctxLight 0 _ _ h h').1⟩

/-- A left fold of `min` attains its value on the initial element or in the
list, and bounds them all from below. -/
theorem foldl_min_facts (f : FoldZone → ℚ) :
    ∀ (l : List FoldZone) (init : ℚ),
      (l.foldl (fun m z => min m (f z)) init = init ∨
        ∃ z ∈ l, l.foldl (fun m z => min m (f z)) init = f z) ∧
      l.foldl (fun m z => min m (f z)) init ≤ init ∧
      ∀ z ∈ l, l.foldl (fun m z => min m (f z)) init ≤ f z
  | [], init => by simp
  | z :: l, init => by
      obtain ⟨ihv, ihle, ihall⟩ := foldl_min_facts f l (min init (f z))
      simp only [List.foldl_cons]
      refine ⟨?_, ?_, ?_⟩
      · rcases ihv with hv | ⟨z', hz', hv⟩
        · rcases min_choice init (f z) with hm | hm
          · exact Or.inl (hv.trans hm)
          · exact Or.inr ⟨z, List.mem_cons_self _ _, hv.trans hm⟩
        · exact Or.inr ⟨z', List.mem_cons_of_mem _ hz', hv⟩
      · exact le_trans ihle (min_le_left _ _)
      · intro z' hz'
        rcases List.mem_cons.mp hz' with hz' | hz'
        · rw [hz']
          exact le_trans ihle (min_le_right _ _)
        · exact ihall z' hz'

/-- A left fold of `max` attains its value on the initial element or in the
list, and bounds them all from above. -/
theorem foldl_max_facts (f : FoldZone → ℚ) :
    ∀ (l : List FoldZone) (init : ℚ),
      (l.foldl (fun m z => max m (f z)) init = init ∨
        ∃ z ∈ l, l.foldl (fun m z => max m (f z)) init = f z) ∧
      init ≤ l.foldl (fun m z => max m (f z)) init ∧
      ∀ z ∈ l, f z ≤ l.foldl (fun m z => max m (f z)) init
  | [], init => by simp
  | z :: l, init => by
      obtain ⟨ihv, ihle, ihall⟩ := foldl_max_facts f l (max init (f z))
      simp only [List.foldl_cons]
      refine ⟨?_, ?_, ?_⟩
      · rcases ihv with hv | ⟨z', hz', hv⟩
        · rcases max_choice init (f z) with hm | hm
          · exact Or.inl (hv.trans hm)
          · exact Or.inr ⟨z, List.mem_cons_self _ _, hv.trans hm⟩
        · exact Or.inr ⟨z', List.mem_cons_of_mem _ hz', hv⟩
      · exact le_trans (le_max_left _ _) ihle
      · intro z' hz'
        rcases List.mem_cons.mp hz' with hz' | hz'
        · rw [hz']
          exact le_trans (le_max_right _ _) ihle
        · exact ihall z' hz'

/-- C7: each MMF page collapses a non-empty detected zone list for its
column into exactly one zone, spanning the minimum `startMark` to the
maximum `endMark` (formatted), with `hasContent` true iff at least one
underlying zone existed; and `[(1,2), (5,9)]` collapses to `(1, 9)` of
height `8`. -/
theorem mmf_collapse_spec (ctx : GenerationContext) (i : ℕ) (pg : PagePattern)
    (h : (MMFMode.generatePattern ctx)[i]? = some pg) :
    (pg.hasContent = true ↔
      ZoneDetector.detectZones
        { imageData := ctx.imageData,
          columnX := jsFloor ((i : ℚ) *
            ((ctx.imageData.width : ℚ) / (ctx.physicalPages : ℚ))),
          threshold := ctx.threshold, pageHeightCm := ctx.pageHeightCm,
          precision := ctx.precision, detectDark := true } ≠ []) ∧
    (∀ dz, dz = ZoneDetector.detectZones
        { imageData := ctx.imageData,
          columnX := jsFloor ((i : ℚ) *
            ((ctx.imageData.width : ℚ) / (ctx.physicalPages : ℚ))),
          threshold := ctx.threshold, pageHeightCm := ctx.pageHeightCm,
          precision := ctx.precision, detectDark := true } →
      dz ≠ [] →
      ∃ zm ∈ dz, ∃ zM ∈ dz,
        (∀ z ∈ dz, zm.startMark ≤ z.startMark) ∧
        (∀ z ∈ dz, z.endMark ≤ zM.endMark) ∧
        pg.zones = [⟨PrecisionManager.format zm.startMark ctx.precision,
          PrecisionManager.format zM.endMark ctx.precision,
          PrecisionManager.format (zM.endMark - zm.startMark) ctx.precision,
          none⟩]) ∧
    MMFMode.combineZones [⟨1, 2, 1, none⟩, ⟨5, 9, 4, none⟩] .p01mm =
      some ⟨1, 9, 8, none⟩ := by
  unfold MMFMode.generatePattern at h
  rw [List.getElem?_map] at h
  have hi : i < ctx.physicalPages := by
    by_contra hlt
    rw [List.getElem?_eq_none (by simp only [List.length_range]; omega)] at h
    simp at h
  rw [List.getElem?_range hi] at h
  simp only [Option.map_some', Option.some_inj] at h
  set dz := ZoneDetector.detectZones
    { imageData := ctx.imageData,
      columnX := jsFloor ((i : ℚ) *
        ((ctx.imageData.width : ℚ) / (ctx.physicalPages : ℚ))),
      threshold := ctx.threshold, pageHeightCm := ctx.pageHeightCm,
      precision := ctx.precision, detectDark := true } with hdz
  refine ⟨?_, ?_, ?_⟩
  · constructor
    · intro hc
      intro hnil
      rw [← h] at hc
      rw [hnil] at hc
      simp [MMFMode.combineZones] at hc
    · intro hne
      obtain ⟨z0, rest, hcons⟩ := List.exists_cons_of_ne_nil hne
      rw [← h, hcons]
      simp [MMFMode.combineZones]
  · intro dz' hdz' hne
    obtain ⟨z0, rest, hcons⟩ := List.exists_cons_of_ne_nil (hdz' ▸ hne)
    subst hdz'
    rw [hcons] at h ⊢
    obtain ⟨hminv, _, hminall⟩ :=
      foldl_min_facts FoldZone.startMark (z0 :: rest) z0.startMark
    obtain ⟨hmaxv, _, hmaxall⟩ :=
      foldl_max_facts FoldZone.endMark (z0 :: rest) z0.endMark
    have hzm : ∃ zm ∈ z0 :: rest,
        (z0 :: rest).foldl (fun m z => min m z.startMark) z0.startMark =
          zm.startMark := by
      rcases hminv with hv | ⟨z', hz', hv⟩
      · exact ⟨z0, List.mem_cons_self _ _, hv⟩
      · exact ⟨z', hz', hv⟩
    have hzM : ∃ zM ∈ z0 :: rest,
        (z0 :: rest).foldl (fun m z => max m z.endMark) z0.endMark =
          zM.endMark := by
      rcases hmaxv with hv | ⟨z', hz', hv⟩
      · exact ⟨z0, List.mem_cons_self _ _, hv⟩
      · exact ⟨z', hz', hv⟩
    obtain ⟨zm, hzmmem, hzmv⟩ := hzm
    obtain ⟨zM, hzMmem, hzMv⟩ := hzM
    refine ⟨zm, hzmmem, zM, hzMmem, ?_, ?_, ?_⟩
    · intro z hz
      rw [← hzmv]
      exact hminall z hz
    · intro z hz
      rw [← hzMv]
      exact hmaxall z hz
    · rw [← h]
      simp only [MMFMode.combineZones, hzmv, hzMv]
  · simp only [MMFMode.combineZones, List.foldl_cons, List.foldl_nil]
    norm_num [min_def, max_def, PrecisionManager.format,
      PrecisionManager.round, jsRound]

/-- Witness for the MMF collapse theorem at a concrete context (all-light
image: no underlying zones, so the page has no content). -/
theorem mmf_collapse_spec_witness :
    ((MMFMode.generatePattern ctxLight)[0]? =
      some { page := 1, zones := [], hasContent := false }) ∧
    ((({ page := 1, zones := [], hasContent := false } : PagePattern).hasContent
        = true ↔
      ZoneDetector.detectZones
        { imageData := ctxLight.imageData,
          columnX := jsFloor (((0 : ℕ) : ℚ) *
            ((ctxLight.imageData.width : ℚ) / (ctxLight.physicalPages : ℚ))),
          threshold := ctxLight.threshold, pageHeightCm := ctxLight.pageHeightCm,
          precision := ctxLight.precision, detectDark := true } ≠ []) ∧
    (∀ dz, dz = ZoneDetector.detectZones
        { imageData := ctxLight.imageData,
          columnX := jsFloor (((0 : ℕ) : ℚ) *
            ((ctxLight.imageData.width : ℚ) / (ctxLight.physicalPages : ℚ))),
          threshold := ctxLight.threshold, pageHeightCm := ctxLight.pageHeightCm,
          precision := ctxLight.precision, detectDark := true } →
      dz ≠ [] →
      ∃ zm ∈ dz, ∃ zM ∈ dz,
        (∀ z ∈ dz, zm.startMark ≤ z.startMark) ∧
        (∀ z ∈ dz, z.endMark ≤ zM.endMark) ∧
        ({ page := 1, zones := [], hasContent := false } : PagePattern).zones =
          [⟨PrecisionManager.format zm.startMark ctxLight.precision,
            PrecisionManager.format zM.endMark ctxLight.precision,
            PrecisionManager.format (zM.endMark - zm.startMark)
              ctxLight.precision, none⟩]) ∧
    MMFMode.combineZones [⟨1, 2, 1, none⟩, ⟨5, 9, 4, none⟩] .p01mm =
      some ⟨1, 9, 8, none⟩) := by
  have h : (MMFMode.generatePattern ctxLight)[0]? =
      some { page := 1, zones := [], hasContent := false } := by decide
  exact ⟨h, mmf_collapse_spec ctxLight 0 _ h⟩

namespace CombiService
/-- Every zone the center scan emits is marked `isEdgeFold = false`. -/
theorem centerLoop_isEdgeFold (imageData : ImageData) (x : ℤ)
    (pageHeight threshold : ℚ) (precision : Precision) (edgeWidth : ℚ) :
    ∀ (ys : List ℕ) (iz : Bool) (zs : ℤ),
      ∀ z ∈ centerLoop imageData x pageHeight threshold precision edgeWidth
        ys iz zs, z.isEdgeFold = some false
  | [], iz, zs => by
      intro z hz
      simp only [centerLoop] at hz
      split at hz
      · split at hz
        · simp only [List.mem_singleton] at hz
          rw [hz]
        · simp at hz
      · simp at hz
  | y :: ys, iz, zs => by
      intro z hz
      have ih := centerLoop_isEdgeFold imageData x pageHeight threshold
        precision edgeWidth ys
      simp only [centerLoop] at hz
      split at hz
      · split at hz
        · rcases List.mem_cons.mp hz with hz | hz
          · rw [hz]
          · exact ih false (-1) z hz
        · exact ih iz zs z hz
      · split at hz
        · exact ih true (y : ℤ) z hz
        · split at hz
          · rcases List.mem_cons.mp hz with hz | hz
            · rw [hz]
            · exact ih false (-1) z hz
          · exact ih iz zs z hz
end CombiService

/-- C2 (amended): in every Combi pattern, a page `hasContent` exactly when
it carries at least one center (non-edge) zone beyond the two edge folds —
not unconditionally. -/
theorem combi_hasContent_iff (img : ImageData) (bookPages : ℕ) (H thr : ℚ)
    (p : Precision) (eW : ℚ) :
    ∀ pg ∈ CombiService.generatePattern img bookPages H thr p eW,
      (pg.hasContent = true ↔ ∃ z ∈ pg.zones, z.isEdgeFold = some false) := by
  intro pg hpg
  unfold CombiService.generatePattern at hpg
  obtain ⟨page, _, hbody⟩ := List.mem_map.mp hpg
  by_cases hoob : jsFloor ((page : ℚ) * ((img.width : ℚ) / (bookPages : ℚ))) < 0
      ∨ (img.width : ℤ) ≤ jsFloor ((page : ℚ) * ((img.width : ℚ) / (bookPages : ℚ)))
  · rw [if_pos hoob] at hbody
    rw [← hbody]
    simp
  · rw [if_neg hoob] at hbody
    set x := jsFloor ((page : ℚ) * ((img.width : ℚ) / (bookPages : ℚ))) with hx
    set centers := CombiService.centerLoop img x H thr p eW
      (List.range img.height) false (-1) with hcenters
    set e1 : FoldZone :=
      { startMark := CombiService.roundValue 0 p,
        endMark := CombiService.roundValue eW p,
        height := CombiService.roundValue eW p, isEdgeFold := some true } with he1
    set e2 : FoldZone :=
      { startMark := CombiService.roundValue (H - eW) p,
        endMark := CombiService.roundValue H p,
        height := CombiService.roundValue eW p, isEdgeFold := some true } with he2
    have hperm := List.perm_insertionSort
      (fun a b => a.startMark ≤ b.startMark) (e1 :: e2 :: centers)
    rw [← hbody]
    simp only
    constructor
    · intro hc
      have hlen : 2 < (List.insertionSort (fun a b => a.startMark ≤ b.startMark)
          (e1 :: e2 :: centers)).length := of_decide_eq_true hc
      rw [hperm.length_eq] at hlen
      simp only [List.length_cons] at hlen
      have : 0 < centers.length := by omega
      obtain ⟨c, hcmem⟩ := List.exists_mem_of_length_pos this
      refine ⟨c, ?_, ?_⟩
      · rw [hperm.mem_iff]
        exact List.mem_cons_of_mem _ (List.mem_cons_of_mem _ hcmem)
      · exact CombiService.centerLoop_isEdgeFold img x H thr p eW
          (List.range img.height) false (-1) c hcmem
    · rintro ⟨z, hzmem, hzfold⟩
      rw [hperm.mem_iff] at hzmem
      rcases List.mem_cons.mp hzmem with hz | hz
      · rw [hz] at hzfold
        simp [he1] at hzfold
      · rcases List.mem_cons.mp hz with hz | hz
        · rw [hz] at hzfold
          simp [he2] at hzfold
        · have : 0 < centers.length := List.length_pos_of_mem hz
          have hlen : 2 < (e1 :: e2 :: centers).length := by
            simp only [List.length_cons]
            omega
          rw [← hperm.length_eq] at hlen
          exact decide_eq_true hlen

/-- C2 counterexample: a Combi generation whose parameters pass validation
(edge width 1 on a 4 cm page) produces a page whose zones are exactly the
two edge folds and whose `hasContent` is `false` — Combi pages do not
always count as having content. -/
theorem combi_hasContent_counterexample :
    ¬ ((1 : ℚ) * 2 ≥ 4) ∧
    ¬ (∀ pg ∈ CombiService.generatePattern imgWhite4 1 4 128 .p01mm 1,
        pg.hasContent = true) := by
  have hpg : CombiService.generatePattern imgWhite4 1 4 128 .p01mm 1 =
      [{ page := 1,
         zones := [⟨0, 1, 1, some true⟩, ⟨3, 4, 1, some true⟩],
         hasContent := false }] := by
    unfold CombiService.generatePattern
    rw [show List.range 1 = [0] from rfl]
    simp only [List.map_cons, List.map_nil]
    rw [show List.range imgWhite4.height = [0, 1, 2, 3] from rfl]
    norm_num [jsFloor, imgWhite4, CombiService.centerLoop,
      CombiService.roundValue, jsRound, List.insertionSort, List.orderedInsert]
  constructor
  · norm_num
  · intro hall
    rw [hpg] at hall
    have := hall _ (List.mem_singleton_self _)
    simp at this

/-- Witness for the Combi `hasContent` rule at a concrete generation. -/
theorem combi_hasContent_iff_witness :
    combiPageW ∈ CombiService.generatePattern imgWhite4 1 4 128 .p01mm 1 ∧
    (combiPageW.hasContent = true ↔
      ∃ z ∈ combiPageW.zones, z.isEdgeFold = some false) := by
  have hpg : CombiService.generatePattern imgWhite4 1 4 128 .p01mm 1 =
      [combiPageW] := by
    unfold CombiService.generatePattern
    rw [show List.range 1 = [0] from rfl]
    simp only [List.map_cons, List.map_nil]
    rw [show List.range imgWhite4.height = [0, 1, 2, 3] from rfl]
    norm_num [jsFloor, imgWhite4, CombiService.centerLoop, combiPageW,
      CombiService.roundValue, jsRound, List.insertionSort, List.orderedInsert]
  have hmem : combiPageW ∈
      CombiService.generatePattern imgWhite4 1 4 128 .p01mm 1 := by
    rw [hpg]
    exact List.mem_singleton_self _
  exact ⟨hmem, combi_hasContent_iff imgWhite4 1 4 128 .p01mm 1 combiPageW hmem⟩

/-- Every page of a Combi pattern on a nonempty image carries exactly two
edge-fold zones, spanning `[0, edgeWidth]` and
`[pageHeight − edgeWidth, pageHeight]` (rounded). -/
theorem combi_page_edges (img : ImageData) (bookPages : ℕ) (H thr : ℚ)
    (p : Precision) (eW : ℚ) (hw : 1 ≤ img.width) :
    ∀ pg ∈ CombiService.generatePattern img bookPages H thr p eW,
      pg.zones.countP (fun z => z.isEdgeFold == some true) = 2 ∧
      (⟨CombiService.roundValue 0 p, CombiService.roundValue eW p,
        CombiService.roundValue eW p, some true⟩ : FoldZone) ∈ pg.zones ∧
      (⟨CombiService.roundValue (H - eW) p, CombiService.roundValue H p,
        CombiService.roundValue eW p, some true⟩ : FoldZone) ∈ pg.zones := by
  intro pg hpg
  unfold CombiService.generatePattern at hpg
  obtain ⟨page, hpagemem, hbody⟩ := List.mem_map.mp hpg
  have hpagelt : page < bookPages := List.mem_range.mp hpagemem
  have hbp : (0 : ℚ) < (bookPages : ℚ) := by
    have : 0 < bookPages := by omega
    exact_mod_cast this
  have hwq : (0 : ℚ) < (img.width : ℚ) := by exact_mod_cast hw
  have hx0 : 0 ≤ jsFloor ((page : ℚ) * ((img.width : ℚ) / (bookPages : ℚ))) := by
    unfold jsFloor
    refine Int.floor_nonneg.mpr ?_
    positivity
  have hxlt : jsFloor ((page : ℚ) * ((img.width : ℚ) / (bookPages : ℚ))) <
      (img.width : ℤ) := by
    unfold jsFloor
    rw [Int.floor_lt]
    push_cast
    have h1 : (page : ℚ) < (bookPages : ℚ) := by exact_mod_cast hpagelt
    have h2 : (page : ℚ) * ((img.width : ℚ) / (bookPages : ℚ)) <
        (bookPages : ℚ) * ((img.width : ℚ) / (bookPages : ℚ)) :=
      mul_lt_mul_of_pos_right h1 (div_pos hwq hbp)
    calc (page : ℚ) * ((img.width : ℚ) / (bookPages : ℚ))
        < (bookPages : ℚ) * ((img.width : ℚ) / (bookPages : ℚ)) := h2
      _ = (img.width : ℚ) := by
          field_simp
  rw [if_neg (by push_neg; exact ⟨by omega, hxlt⟩)] at hbody
  rw [← hbody]
  simp only
  have hperm := List.perm_insertionSort
    (fun a b => a.startMark ≤ b.startMark)
    (({ startMark := CombiService.roundValue 0 p,
        endMark := CombiService.roundValue eW p,
        height := CombiService.roundValue eW p, isEdgeFold := some true } :
          FoldZone) ::
      ({ startMark := CombiService.roundValue (H - eW) p,
         endMark := CombiService.roundValue H p,
         height := CombiService.roundValue eW p, isEdgeFold := some true } :
           FoldZone) ::
      CombiService.centerLoop img
        (jsFloor ((page : ℚ) * ((img.width : ℚ) / (bookPages : ℚ)))) H thr p eW
        (List.range img.height) false (-1))
  refine ⟨?_, ?_, ?_⟩
  · rw [hperm.countP_eq]
    have hc0 : (CombiService.centerLoop img
        (jsFloor ((page : ℚ) * ((img.width : ℚ) / (bookPages : ℚ)))) H thr p eW
        (List.range img.height) false (-1)).countP
          (fun z => z.isEdgeFold == some true) = 0 := by
      rw [List.countP_eq_zero]
      intro z hz
      have hfold := CombiService.centerLoop_isEdgeFold img _ H thr p eW
        (List.range img.height) false (-1) z hz
      simp [hfold]
    simp [List.countP_cons, hc0]
  · rw [hperm.mem_iff]
    exact List.mem_cons_self _ _
  · rw [hperm.mem_iff]
    exact List.mem_cons_of_mem _ (List.mem_cons_self _ _)

/-- C8: with otherwise-valid parameters (positive page count and height,
nonempty image), `CombiService.execute` fails validation exactly when
`2 * edgeWidth ≥ pageHeightCm`; when it succeeds, every page of the
returned pattern carries exactly two edge-fold zones, spanning
`[0, edgeWidth]` and `[pageHeight − edgeWidth, pageHeight]` (rounded),
plus zero or more center zones. -/
theorem combi_execute_spec (imgData : ImageData) (params : CutModeParams)
    (n ph : ℚ)
    (hn : params.lastPageNumber = some n) (hn0 : 0 < n)
    (hp : params.pageHeight = some ph) (hp0 : 0 < ph)
    (hw : 1 ≤ imgData.width) :
    ((CombiService.execute imgData params).success = false ↔
      params.combiEdgeWidth.getD 2 * 2 ≥
        (if params.pageHeightUnit == some UnitKind.inch then ph * (254/100)
         else ph)) ∧
    (∀ d, (CombiService.execute imgData params).data = some d →
      ∀ pattern, d.pattern = some pattern →
      ∀ pg ∈ pattern,
        pg.zones.countP (fun z => z.isEdgeFold == some true) = 2 ∧
        (⟨CombiService.roundValue 0 (params.precision.getD .p01mm),
          CombiService.roundValue (params.combiEdgeWidth.getD 2)
            (params.precision.getD .p01mm),
          CombiService.roundValue (params.combiEdgeWidth.getD 2)
            (params.precision.getD .p01mm), some true⟩ : FoldZone) ∈ pg.zones ∧
        (⟨CombiService.roundValue
            ((if params.pageHeightUnit == some UnitKind.inch then
                ph * (254/100) else ph) - params.combiEdgeWidth.getD 2)
            (params.precision.getD .p01mm),
          CombiService.roundValue
            (if params.pageHeightUnit == some UnitKind.inch then
              ph * (254/100) else ph) (params.precision.getD .p01mm),
          CombiService.roundValue (params.combiEdgeWidth.getD 2)
            (params.precision.getD .p01mm), some true⟩ : FoldZone) ∈ pg.zones) := by
  unfold CombiService.execute
  rw [hn, hp]
  simp only [Option.getD_some]
  rw [if_neg (not_le.mpr hn0), if_neg (not_le.mpr hp0)]
  by_cases hedge : params.combiEdgeWidth.getD 2 * 2 ≥
      (if params.pageHeightUnit == some UnitKind.inch then ph * (254/100)
       else ph)
  · rw [if_pos hedge]
    constructor
    · exact ⟨fun _ => hedge, fun _ => rfl⟩
    · intro d hd
      simp at hd
  · rw [if_neg hedge]
    constructor
    · simp only [iff_false, hedge]
      intro hfalse
      simp at hfalse
    · intro d hd
      simp only [Option.some_inj] at hd
      intro pattern hpattern
      rw [← hd] at hpattern
      simp only [Option.some_inj] at hpattern
      rw [← hpattern]
      exact combi_page_edges imgData _ _ _ _ _ hw

/-- Witness for the Combi validation/structure theorem: edge width 2.5 cm
fails on a 4 cm page, edge width 1 cm succeeds. -/
theorem combi_execute_spec_witness :
    paramsCombi1.lastPageNumber = some 2 ∧ (0 : ℚ) < 2 ∧
    paramsCombi1.pageHeight = some 4 ∧ (0 : ℚ) < 4 ∧ 1 ≤ imgWhite4.width ∧
    (CombiService.execute imgWhite4 paramsCombi25).success = false ∧
    (CombiService.execute imgWhite4 paramsCombi1).success = true := by
  refine ⟨rfl, by norm_num, rfl, by norm_num, by norm_num [imgWhite4], ?_, ?_⟩
  · have h := (combi_execute_spec imgWhite4 paramsCombi25 2 4 rfl
      (by norm_num) rfl (by norm_num) (by norm_num [imgWhite4])).1
    exact h.mpr (by norm_num [paramsCombi25])
  · have h := (combi_execute_spec imgWhite4 paramsCombi1 2 4 rfl
      (by norm_num) rfl (by norm_num) (by norm_num [imgWhite4])).1
    have h2 : ¬((CombiService.execute imgWhite4 paramsCombi1).success = false) := by
      rw [h]
      norm_num [paramsCombi1]
    cases hsuc : (CombiService.execute imgWhite4 paramsCombi1).success
    · exact absurd hsuc h2
    · rfl

set_option maxRecDepth 20000 in
/-- C9: in the 10-page, 200-row scenario with a dark run at rows 40–59 on a
20 cm page (threshold 128, 0.1 mm precision, Inverted mode), physical page 3
gets exactly one zone: 4.0 cm to 6.0 cm, height 2.0 cm. -/
theorem inverted_end_to_end :
    (InvertedMode.generatePattern ctx9)[2]? =
      some { page := 3, zones := [⟨4, 6, 2, none⟩], hasContent := true } := by
  rw [show InvertedMode.generatePattern ctx9 =
    CutModeBase.generatePattern true ctx9 from rfl]
  unfold CutModeBase.generatePattern
  rw [List.getElem?_map, List.getElem?_range (by norm_num [ctx9] :
    2 < ctx9.physicalPages)]
  simp only [Option.map_some', Option.some_inj]
  have hcol : jsFloor (((2 : ℕ) : ℚ) *
      ((ctx9.imageData.width : ℚ) / (ctx9.physicalPages : ℚ))) = 0 := by
    norm_num [jsFloor, ctx9, img9]
  rw [hcol]
  have hruns : ZoneDetector.detectLoop (ZoneDetector.isTargetPixel
      { imageData := ctx9.imageData, columnX := 0, threshold := ctx9.threshold,
        pageHeightCm := ctx9.pageHeightCm, precision := ctx9.precision,
        detectDark := true }) ctx9.imageData.height
      (List.range ctx9.imageData.height) false 0 = [(40, 60)] := by decide
  have hz : ZoneDetector.detectZones
      { imageData := ctx9.imageData, columnX := 0, threshold := ctx9.threshold,
        pageHeightCm := ctx9.pageHeightCm, precision := ctx9.precision,
        detectDark := true } = [⟨4, 6, 2, none⟩] := by
    show (ZoneDetector.detectLoop (ZoneDetector.isTargetPixel
        { imageData := ctx9.imageData, columnX := 0,
          threshold := ctx9.threshold, pageHeightCm := ctx9.pageHeightCm,
          precision := ctx9.precision, detectDark := true })
        ctx9.imageData.height (List.range ctx9.imageData.height) false 0).map
        (fun r => ZoneDetector.createZone r.1 r.2 ctx9.imageData.height
          ctx9.pageHeightCm ctx9.precision) = _
    rw [hruns]
    simp only [List.map_cons, List.map_nil]
    norm_num [ZoneDetector.createZone, PrecisionManager.format,
      PrecisionManager.round, jsRound, ctx9, img9]
  rw [hz]
  rfl
